import Mathlib

/-!
# Verification of the SWEGEO GNSS backend core

Shallow embedding of the backend of `swegeo_gnss_app` (CRC engine, stream
demultiplexer, NTRIP client, device-query state machine, message router,
derived-field expression guard) together with theorems settling the frozen
claims about the natural-language specification.

Bytes are modelled as `Nat` values; JavaScript 32-bit integer operations are
modelled by plain `Nat` arithmetic wherever the concrete values provably stay
below `2 ^ 32` (noted at each definition), so no wrap-around masking is needed.
-/

namespace Swegeo

/-! ## Byte-level helpers (Node `Buffer.readUInt16LE` / `readUInt32LE`) -/

/-- `buf.readUInt16LE(off)` : little-endian 16-bit read. -/
def readU16LE (l : List Nat) (off : Nat) : Nat :=
  l.getD off 0 + 256 * l.getD (off + 1) 0

/-- `buf.readUInt32LE(off)` : little-endian 32-bit read. -/
def readU32LE (l : List Nat) (off : Nat) : Nat :=
  l.getD off 0 + 256 * l.getD (off + 1) 0 + 65536 * l.getD (off + 2) 0 +
    16777216 * l.getD (off + 3) 0

/-- Little-endian 4-byte encoding of a 32-bit value (used to build test
frames whose CRC trailer is read back by `readU32LE`). -/
def toLE4 (v : Nat) : List Nat :=
  [v % 256, v / 256 % 256, v / 65536 % 256, v / 16777216 % 256]

/-- Big-endian 3-byte encoding of a 24-bit value (RTCM CRC trailer). -/
def toBE3 (v : Nat) : List Nat :=
  [v / 65536 % 256, v / 256 % 256, v % 256]

/-! ## CRC engine — `src/backend/crc.js`

`calcCrc32Value` / `calcBlockCrc32` translate the vendor CRC32; `crc24q`
translates the RTCM CRC-24Q.  In the JavaScript source every intermediate
value stays below `2 ^ 32` (the `>>> 0` coercions and 32-bit bitwise
operators are identities there), so the `Nat` translation is exact. -/

def CRC32_POLYNOMIAL : Nat := 0xEDB88320

/-- One bit round of `calcCrc32Value`'s inner loop. -/
def crc32Bit (c : Nat) : Nat :=
  if c &&& 1 = 1 then (c >>> 1) ^^^ CRC32_POLYNOMIAL else c >>> 1

/-- `calcCrc32Value(value)` : 8 bit rounds. -/
def calcCrc32Value (v : Nat) : Nat := crc32Bit^[8] v

/-- Body of `calcBlockCrc32`'s per-byte loop:
`crc = ((crc >>> 8) & 0x00FFFFFF) ^ calcCrc32Value((crc ^ data[i]) & 0xFF)`. -/
def crc32Update (crc d : Nat) : Nat :=
  ((crc >>> 8) &&& 0x00FFFFFF) ^^^ calcCrc32Value ((crc ^^^ d) &&& 0xFF)

/-- `calcBlockCrc32(data)`. -/
def calcBlockCrc32 (data : List Nat) : Nat := data.foldl crc32Update 0

def CRC24Q_POLY : Nat := 0x1864CFB

/-- One iteration of `crc24q`'s inner bit loop:
`crc <<= 1; if (crc & 0x1000000) crc ^= CRC24Q_POLY`. -/
def crc24Bit (c : Nat) : Nat :=
  if (c <<< 1) &&& 0x1000000 ≠ 0 then (c <<< 1) ^^^ CRC24Q_POLY else c <<< 1

/-- One byte of `crc24q`: `crc ^= data[i] << 16`, 8 bit rounds,
`crc &= 0xFFFFFF`. -/
def crc24Byte (crc b : Nat) : Nat := (crc24Bit^[8] (crc ^^^ (b <<< 16))) &&& 0xFFFFFF

/-- `crc24q(data)` (the trailing `return crc & 0xFFFFFF` included). -/
def crc24q (data : List Nat) : Nat := (data.foldl crc24Byte 0) &&& 0xFFFFFF

/-! ### Reference CRC-24Q

Modelled from the spec: "Polynomial 0x1864CFB, MSB-first bit-serial, masked
to 24 bits each iteration" — the accumulator is reduced modulo `2 ^ 24`
after every single bit iteration, so it is confined to 24 bits at each
step by construction. -/

/-- Reference bit round: shift, conditional polynomial reduction, and a
24-bit confinement applied at every iteration. -/
def crc24BitRef (c : Nat) : Nat :=
  (if (c <<< 1) &&& 0x1000000 ≠ 0 then (c <<< 1) ^^^ CRC24Q_POLY else c <<< 1) % 2 ^ 24

/-- Reference CRC-24Q: byte-by-byte, MSB-first 8-iteration bit loop,
accumulator confined to 24 bits at each iteration. -/
def crc24qRef (data : List Nat) : Nat :=
  data.foldl (fun c b => crc24BitRef^[8] (c ^^^ (b <<< 16))) 0

/-! ### CRC-24Q equivalence lemmas -/

/-- A value below `2 ^ (n + 1)` whose bit `n` is clear is below `2 ^ n`. -/
theorem lt_two_pow_of_testBit_false {x n : Nat} (h1 : x < 2 ^ (n + 1))
    (h2 : x.testBit n = false) : x < 2 ^ n := by
  rcases Nat.lt_or_ge x (2 ^ n) with h | h
  · exact h
  · exfalso
    have hd : x / 2 ^ n = 1 := by
      have h2n : 0 < 2 ^ n := Nat.pos_pow_of_pos n (by norm_num)
      have hlt : x / 2 ^ n < 2 := by
        have : x < 2 ^ n * 2 := by
          calc x < 2 ^ (n + 1) := h1
          _ = 2 ^ n * 2 := by ring
        exact Nat.div_lt_of_lt_mul (by omega)
      have hge : 1 ≤ x / 2 ^ n := (Nat.one_le_div_iff h2n).mpr h
      omega
    rw [Nat.testBit_to_div_mod, hd] at h2
    simp at h2

theorem and_two_pow_ne_zero_iff {x n : Nat} : x &&& 2 ^ n ≠ 0 ↔ x.testBit n = true := by
  constructor
  · intro h
    by_contra hb
    apply h
    apply Nat.eq_of_testBit_eq
    intro i
    simp only [Nat.testBit_and, Nat.zero_testBit, Nat.testBit_two_pow]
    rcases eq_or_ne n i with rfl | hne
    · simp only [decide_eq_true_eq]
      simp only [Bool.not_eq_true] at hb
      simp [hb]
    · simp [hne]
  · intro h hz
    have := congrArg (fun y => y.testBit n) hz
    simp only [Nat.testBit_and, Nat.testBit_two_pow, Nat.zero_testBit] at this
    rw [h] at this
    simp at this

/-- The code's bit round keeps a 24-bit accumulator 24-bit. -/
theorem crc24Bit_lt {c : Nat} (h : c < 2 ^ 24) : crc24Bit c < 2 ^ 24 := by
  have hs : c <<< 1 < 2 ^ 25 := by
    rw [Nat.shiftLeft_eq, pow_one]
    have : c * 2 < 2 ^ 24 * 2 := by omega
    calc c * 2 < 2 ^ 24 * 2 := this
    _ = 2 ^ 25 := by norm_num
  unfold crc24Bit
  split
  · next hcond =>
    have hbs : (c <<< 1).testBit 24 = true := by
      have : (c <<< 1) &&& 2 ^ 24 ≠ 0 := by
        simpa using hcond
      exact and_two_pow_ne_zero_iff.mp this
    have hpoly : (CRC24Q_POLY).testBit 24 = true := by decide
    have hx : ((c <<< 1) ^^^ CRC24Q_POLY).testBit 24 = false := by
      simp [Nat.testBit_xor, hbs, hpoly]
    have hxlt : (c <<< 1) ^^^ CRC24Q_POLY < 2 ^ 25 :=
      Nat.xor_lt_two_pow hs (by norm_num [CRC24Q_POLY])
    exact lt_two_pow_of_testBit_false hxlt hx
  · next hcond =>
    have hbs : (c <<< 1).testBit 24 = false := by
      by_contra hb
      simp only [Bool.not_eq_false] at hb
      exact hcond (by simpa using and_two_pow_ne_zero_iff.mpr hb)
    exact lt_two_pow_of_testBit_false hs hbs

/-- On 24-bit accumulators the reference bit round and the code's bit round
agree (the per-iteration confinement is a no-op). -/
theorem crc24BitRef_eq {c : Nat} (h : c < 2 ^ 24) : crc24BitRef c = crc24Bit c := by
  have := crc24Bit_lt h
  unfold crc24BitRef crc24Bit at *
  exact Nat.mod_eq_of_lt this

theorem crc24Bit_iter_lt (n : Nat) {c : Nat} (h : c < 2 ^ 24) :
    crc24Bit^[n] c < 2 ^ 24 := by
  induction n generalizing c with
  | zero => simpa using h
  | succ n ih =>
    rw [Function.iterate_succ_apply]
    exact ih (crc24Bit_lt h)

theorem crc24BitRef_iter_eq (n : Nat) {c : Nat} (h : c < 2 ^ 24) :
    crc24BitRef^[n] c = crc24Bit^[n] c := by
  induction n generalizing c with
  | zero => rfl
  | succ n ih =>
    rw [Function.iterate_succ_apply, Function.iterate_succ_apply,
      crc24BitRef_eq h]
    exact ih (crc24Bit_lt h)

theorem crc24Byte_lt (c b : Nat) : crc24Byte c b < 2 ^ 24 := by
  unfold crc24Byte
  have : (0xFFFFFF : Nat) = 2 ^ 24 - 1 := by norm_num
  rw [this, Nat.and_pow_two_sub_one_eq_mod]
  exact Nat.mod_lt _ (by norm_num)

/-- Per-byte agreement of code and reference on 24-bit accumulators and
genuine bytes. -/
theorem crc24Byte_ref_eq {c b : Nat} (hc : c < 2 ^ 24) (hb : b < 256) :
    crc24Byte c b = crc24BitRef^[8] (c ^^^ (b <<< 16)) := by
  have hshift : b <<< 16 < 2 ^ 24 := by
    rw [Nat.shiftLeft_eq]
    calc b * 2 ^ 16 < 256 * 2 ^ 16 := by omega
    _ = 2 ^ 24 := by norm_num
  have hx : c ^^^ (b <<< 16) < 2 ^ 24 := Nat.xor_lt_two_pow hc hshift
  unfold crc24Byte
  rw [crc24BitRef_iter_eq 8 hx]
  have hlt : crc24Bit^[8] (c ^^^ b <<< 16) < 2 ^ 24 := crc24Bit_iter_lt 8 hx
  have : (0xFFFFFF : Nat) = 2 ^ 24 - 1 := by norm_num
  rw [this, Nat.and_pow_two_sub_one_of_lt_two_pow hlt]

theorem crc24q_foldl_lt (data : List Nat) (c : Nat) (hc : c < 2 ^ 24) :
    data.foldl crc24Byte c < 2 ^ 24 := by
  induction data generalizing c with
  | nil => simpa using hc
  | cons x xs ih => exact ih _ (crc24Byte_lt _ _)

/-- **C4** — `crc24q` is bit-for-bit the reference MSB-first bit-serial
CRC-24Q with polynomial 0x1864CFB whose accumulator is confined to 24 bits
at each iteration: on every byte sequence the two functions agree. -/
theorem crc24q_eq_ref (data : List Nat) (h : ∀ b ∈ data, b < 256) :
    crc24q data = crc24qRef data := by
  unfold crc24q crc24qRef
  have main : ∀ (l : List Nat), (∀ b ∈ l, b < 256) → ∀ c : Nat, c < 2 ^ 24 →
      l.foldl crc24Byte c = l.foldl (fun c b => crc24BitRef^[8] (c ^^^ (b <<< 16))) c := by
    intro l
    induction l with
    | nil => intro _ c _; rfl
    | cons x xs ih =>
      intro hmem c hc
      have hx : x < 256 := hmem x (List.mem_cons_self x xs)
      simp only [List.foldl_cons]
      rw [← crc24Byte_ref_eq hc hx]
      exact ih (fun b hb => hmem b (List.mem_cons_of_mem x hb)) _ (crc24Byte_lt _ _)
  rw [main data h 0 (by norm_num)]
  have hlt : data.foldl (fun c b => crc24BitRef^[8] (c ^^^ (b <<< 16))) 0 < 2 ^ 24 := by
    rw [← main data h 0 (by norm_num)]
    exact crc24q_foldl_lt data 0 (by norm_num)
  have : (0xFFFFFF : Nat) = 2 ^ 24 - 1 := by norm_num
  rw [this, Nat.and_pow_two_sub_one_of_lt_two_pow hlt]

/-- **C4 witness** — the agreement at the standard check vector
`"123456789"`. -/
theorem crc24q_eq_ref_witness :
    (∀ b ∈ [49, 50, 51, 52, 53, 54, 55, 56, 57], b < 256) ∧
      crc24q [49, 50, 51, 52, 53, 54, 55, 56, 57] =
        crc24qRef [49, 50, 51, 52, 53, 54, 55, 56, 57] :=
  ⟨by decide, crc24q_eq_ref _ (by decide)⟩

/-! ### CRC32 algebra

`calcBlockCrc32` starts from accumulator 0 and applies only shifts, masks and
XORs, so it is GF(2)-linear in the data.  Changing a single byte therefore
shifts the block CRC by the CRC of a one-hot difference vector, which is
never zero — the key fact behind claim C3. -/

theorem shiftRight_xor_distrib (a b n : Nat) :
    (a ^^^ b) >>> n = (a >>> n) ^^^ (b >>> n) := by
  apply Nat.eq_of_testBit_eq
  intro i
  simp [Nat.testBit_shiftRight, Nat.testBit_xor]

/-- Closed form of one CRC32 bit round: the conditional polynomial XOR is
`(c &&& 1) * P`. -/
theorem crc32Bit_eq (c : Nat) :
    crc32Bit c = (c >>> 1) ^^^ ((c &&& 1) * CRC32_POLYNOMIAL) := by
  unfold crc32Bit
  have h := Nat.and_one_is_mod c
  rcases Nat.mod_two_eq_zero_or_one c with h0 | h1
  · rw [if_neg (by omega)]
    rw [h, h0]
    simp
  · rw [if_pos (by omega)]
    rw [h, h1]
    simp

theorem nat_xor_left_comm (x y z : Nat) : x ^^^ (y ^^^ z) = y ^^^ (x ^^^ z) := by
  rw [← Nat.xor_assoc, Nat.xor_comm x y, Nat.xor_assoc]

theorem nat_xor_xor_self (x y : Nat) : x ^^^ (x ^^^ y) = y := by
  rw [← Nat.xor_assoc, Nat.xor_self, Nat.zero_xor]

theorem crc32Bit_linear (a b : Nat) :
    crc32Bit (a ^^^ b) = crc32Bit a ^^^ crc32Bit b := by
  rw [crc32Bit_eq, crc32Bit_eq, crc32Bit_eq, shiftRight_xor_distrib,
    Nat.and_xor_distrib_right, Nat.and_one_is_mod, Nat.and_one_is_mod]
  rcases Nat.mod_two_eq_zero_or_one a with ha | ha <;>
    rcases Nat.mod_two_eq_zero_or_one b with hb | hb <;>
      rw [ha, hb] <;>
      simp [Nat.xor_comm, nat_xor_left_comm, Nat.xor_assoc, nat_xor_xor_self]

theorem calcCrc32Value_linear (a b : Nat) :
    calcCrc32Value (a ^^^ b) = calcCrc32Value a ^^^ calcCrc32Value b := by
  unfold calcCrc32Value
  have : ∀ n x y, crc32Bit^[n] (x ^^^ y) = crc32Bit^[n] x ^^^ crc32Bit^[n] y := by
    intro n
    induction n with
    | zero => intro x y; rfl
    | succ n ih =>
      intro x y
      rw [Function.iterate_succ_apply, Function.iterate_succ_apply,
        Function.iterate_succ_apply, crc32Bit_linear]
      exact ih _ _
  exact this 8 a b

theorem calcCrc32Value_zero : calcCrc32Value 0 = 0 := by decide

set_option maxRecDepth 10000 in
/-- For nonzero bytes the single-byte CRC32 value has its top byte set
(the table entry's high bits are the reversed byte). -/
theorem calcCrc32Value_hi : ∀ d, d < 256 → d ≠ 0 → 2 ^ 24 ≤ calcCrc32Value d := by
  decide

set_option maxRecDepth 10000 in
theorem calcCrc32Value_lt : ∀ d, d < 256 → calcCrc32Value d < 2 ^ 32 := by decide

theorem and_255_lt (x : Nat) : x &&& 255 < 256 := by
  have : (255 : Nat) = 2 ^ 8 - 1 := by norm_num
  rw [this, Nat.and_pow_two_sub_one_eq_mod]
  exact Nat.mod_lt _ (by norm_num)

theorem crc32Update_lt (c d : Nat) : crc32Update c d < 2 ^ 32 := by
  unfold crc32Update
  apply Nat.xor_lt_two_pow
  · calc ((c >>> 8) &&& 0x00FFFFFF) ≤ 0x00FFFFFF := Nat.and_le_right
    _ < 2 ^ 32 := by norm_num
  · exact calcCrc32Value_lt _ (and_255_lt _)

theorem crc32Update_linear (c₁ c₂ d₁ d₂ : Nat) :
    crc32Update (c₁ ^^^ c₂) (d₁ ^^^ d₂) = crc32Update c₁ d₁ ^^^ crc32Update c₂ d₂ := by
  unfold crc32Update
  rw [shiftRight_xor_distrib, Nat.and_xor_distrib_right]
  have harg : ((c₁ ^^^ c₂) ^^^ (d₁ ^^^ d₂)) &&& 255 =
      ((c₁ ^^^ d₁) &&& 255) ^^^ ((c₂ ^^^ d₂) &&& 255) := by
    rw [← Nat.and_xor_distrib_right]
    congr 1
    rw [Nat.xor_assoc, ← Nat.xor_assoc c₂, Nat.xor_comm c₂ d₁, Nat.xor_assoc,
      ← Nat.xor_assoc]
  rw [show ((c₁ ^^^ c₂) ^^^ (d₁ ^^^ d₂)) &&& 0xFF =
        ((c₁ ^^^ d₁) &&& 255) ^^^ ((c₂ ^^^ d₂) &&& 255) from harg,
    calcCrc32Value_linear]
  generalize ((c₁ >>> 8) &&& 0x00FFFFFF) = t₁
  generalize ((c₂ >>> 8) &&& 0x00FFFFFF) = t₂
  generalize calcCrc32Value ((c₁ ^^^ d₁) &&& 255) = u₁
  generalize calcCrc32Value ((c₂ ^^^ d₂) &&& 255) = u₂
  rw [Nat.xor_assoc, ← Nat.xor_assoc t₂, Nat.xor_comm t₂ u₁, Nat.xor_assoc u₁,
    ← Nat.xor_assoc]

/-- GF(2)-linearity of the CRC32 block fold over pointwise XOR. -/
theorem crc32_foldl_linear :
    ∀ (xs ys : List Nat), xs.length = ys.length → ∀ c₁ c₂ : Nat,
      List.foldl crc32Update (c₁ ^^^ c₂) (List.zipWith (· ^^^ ·) xs ys) =
        List.foldl crc32Update c₁ xs ^^^ List.foldl crc32Update c₂ ys := by
  intro xs
  induction xs with
  | nil =>
    intro ys h c₁ c₂
    cases ys with
    | nil => rfl
    | cons y ys => simp at h
  | cons x xs ih =>
    intro ys h c₁ c₂
    cases ys with
    | nil => simp at h
    | cons y ys =>
      simp only [List.zipWith_cons_cons, List.foldl_cons]
      rw [crc32Update_linear]
      exact ih ys (by simpa using h) _ _

theorem crc32_foldl_zeros (n : Nat) :
    List.foldl crc32Update 0 (List.replicate n 0) = 0 := by
  induction n with
  | zero => rfl
  | succ n ih =>
    rw [List.replicate_succ, List.foldl_cons]
    have : crc32Update 0 0 = 0 := by
      unfold crc32Update
      simp [calcCrc32Value_zero]
    rw [this, ih]

/-- A zero input byte never maps a nonzero (32-bit) accumulator to zero. -/
theorem crc32Update_zero_ne {c : Nat} (hc : c < 2 ^ 32) (hne : c ≠ 0) :
    crc32Update c 0 ≠ 0 := by
  unfold crc32Update
  rcases Nat.eq_zero_or_pos (c &&& 255) with hb | hb
  · rw [Nat.xor_zero, hb, calcCrc32Value_zero, Nat.xor_zero]
    have h255 : (255 : Nat) = 2 ^ 8 - 1 := by norm_num
    rw [h255, Nat.and_pow_two_sub_one_eq_mod] at hb
    have hge : 256 ≤ c := by
      rcases Nat.lt_or_ge c 256 with h | h
      · exfalso; exact hne (by omega)
      · exact h
    have hdiv : 1 ≤ c >>> 8 := by
      rw [Nat.shiftRight_eq_div_pow]
      exact (Nat.one_le_div_iff (by norm_num)).mpr (by omega)
    have hlt : c >>> 8 < 2 ^ 24 := by
      rw [Nat.shiftRight_eq_div_pow]
      have : c / 2 ^ 8 < 2 ^ 32 / 2 ^ 8 ∨ c / 2 ^ 8 < 2 ^ 24 := by
        right
        apply Nat.div_lt_of_lt_mul
        calc c < 2 ^ 32 := hc
        _ = 2 ^ 24 * 2 ^ 8 := by norm_num
      rcases this with h | h
      · simpa using h
      · exact h
    have : (0x00FFFFFF : Nat) = 2 ^ 24 - 1 := by norm_num
    rw [this, Nat.and_pow_two_sub_one_of_lt_two_pow hlt]
    omega
  · rw [Nat.xor_zero]
    have hblt : c &&& 255 < 256 := and_255_lt c
    have hhi : 2 ^ 24 ≤ calcCrc32Value (c &&& 255) :=
      calcCrc32Value_hi _ hblt (by omega)
    intro hzero
    have := congrArg (fun x => x >>> 24) hzero
    simp only at this
    rw [shiftRight_xor_distrib] at this
    have h1 : ((c >>> 8) &&& 0x00FFFFFF) >>> 24 = 0 := by
      rw [Nat.shiftRight_eq_div_pow]
      apply Nat.div_eq_of_lt
      calc ((c >>> 8) &&& 0x00FFFFFF) ≤ 0x00FFFFFF := Nat.and_le_right
      _ < 2 ^ 24 := by norm_num
    have h2 : 1 ≤ calcCrc32Value (c &&& 255) >>> 24 := by
      rw [Nat.shiftRight_eq_div_pow]
      exact (Nat.one_le_div_iff (by norm_num)).mpr hhi
    rw [h1, Nat.zero_xor] at this
    simp only [Nat.zero_shiftRight] at this
    omega

theorem crc32_foldl_zeros_ne {c : Nat} (hc : c < 2 ^ 32) (hne : c ≠ 0) (n : Nat) :
    List.foldl crc32Update c (List.replicate n 0) ≠ 0 := by
  induction n generalizing c with
  | zero => simpa using hne
  | succ n ih =>
    rw [List.replicate_succ, List.foldl_cons]
    exact ih (crc32Update_lt c 0) (crc32Update_zero_ne hc hne)

/-- The block CRC of a one-hot vector (a single nonzero byte among zeros)
is nonzero. -/
theorem calcBlockCrc32_onehot_ne {δ : Nat} (h1 : δ < 256) (h2 : δ ≠ 0)
    (k m : Nat) :
    calcBlockCrc32 (List.replicate k 0 ++ δ :: List.replicate m 0) ≠ 0 := by
  unfold calcBlockCrc32
  rw [List.foldl_append, crc32_foldl_zeros, List.foldl_cons]
  have hstep : crc32Update 0 δ = calcCrc32Value δ := by
    unfold crc32Update
    have h255 : (255 : Nat) = 2 ^ 8 - 1 := by norm_num
    simp only [Nat.zero_shiftRight, Nat.zero_and, Nat.zero_xor]
    rw [h255, Nat.and_pow_two_sub_one_eq_mod, Nat.mod_eq_of_lt h1]
  rw [hstep]
  exact crc32_foldl_zeros_ne (calcCrc32Value_lt δ h1)
    (by have := calcCrc32Value_hi δ h1 h2; omega) m

theorem zipWith_xor_replicate_zero (l : List Nat) :
    List.zipWith (· ^^^ ·) l (List.replicate l.length 0) = l := by
  induction l with
  | nil => rfl
  | cons x xs ih =>
    simp only [List.length_cons, List.replicate_succ, List.zipWith_cons_cons,
      Nat.xor_zero]
    rw [ih]

/-- `l.set k d` differs from `l` by XOR with a one-hot vector. -/
theorem set_eq_zipWith_xor :
    ∀ (l : List Nat) (k d : Nat), k < l.length →
      l.set k d = List.zipWith (· ^^^ ·) l
        (List.replicate k 0 ++ (l.getD k 0 ^^^ d) :: List.replicate (l.length - k - 1) 0) := by
  intro l
  induction l with
  | nil => intro k d h; simp at h
  | cons x xs ih =>
    intro k d h
    cases k with
    | zero =>
      simp only [List.set_cons_zero, List.replicate, List.nil_append,
        List.zipWith_cons_cons, List.getD_cons_zero, List.length_cons]
      rw [← Nat.xor_assoc, Nat.xor_self, Nat.zero_xor]
      congr 1
      have hlen : xs.length + 1 - 0 - 1 = xs.length := by omega
      rw [hlen, zipWith_xor_replicate_zero]
    | succ k =>
      simp only [List.set_cons_succ, List.replicate_succ, List.cons_append,
        List.zipWith_cons_cons, Nat.xor_zero, List.getD_cons_succ,
        List.length_cons]
      have hk : k < xs.length := by simpa using h
      have hlen2 : xs.length + 1 - (k + 1) - 1 = xs.length - k - 1 := by omega
      rw [hlen2, ih k d hk]

/-- **Single-byte sensitivity of `calcBlockCrc32`** — changing any one byte
of a byte list to a different value changes the block CRC. -/
theorem calcBlockCrc32_set_ne (l : List Nat) (k d : Nat) (hk : k < l.length)
    (hl : ∀ b ∈ l, b < 256) (hd : d < 256) (hne : d ≠ l.getD k 0) :
    calcBlockCrc32 (l.set k d) ≠ calcBlockCrc32 l := by
  have hbyte : l.getD k 0 < 256 := by
    have : l.getD k 0 ∈ l := by
      rw [List.getD_eq_getElem?_getD]
      have : l[k]? = some l[k] := List.getElem?_eq_getElem hk
      rw [this]
      simp only [Option.getD_some]
      exact List.getElem_mem hk
    exact hl _ this
  set δ : Nat := l.getD k 0 ^^^ d with hδdef
  have hδlt : δ < 256 := Nat.xor_lt_two_pow (n := 8) hbyte hd
  have hδne : δ ≠ 0 := by
    intro h
    rw [hδdef] at h
    exact hne (Nat.xor_eq_zero.mp h).symm
  have hδlist :
      (List.replicate k 0 ++ δ :: List.replicate (l.length - k - 1) 0).length = l.length := by
    simp only [List.length_append, List.length_replicate, List.length_cons]
    omega
  have hlin : calcBlockCrc32 (l.set k d) =
      calcBlockCrc32 l ^^^
        calcBlockCrc32 (List.replicate k 0 ++ δ :: List.replicate (l.length - k - 1) 0) := by
    unfold calcBlockCrc32
    rw [set_eq_zipWith_xor l k d hk]
    have h0 : (0 : Nat) = 0 ^^^ 0 := rfl
    rw [h0]
    exact crc32_foldl_linear l _ hδlist.symm 0 0
  rw [hlin]
  intro hcontra
  have hzero :
      calcBlockCrc32 (List.replicate k 0 ++ δ :: List.replicate (l.length - k - 1) 0) = 0 := by
    have h2 : (calcBlockCrc32 l ^^^ calcBlockCrc32 l) ^^^
        calcBlockCrc32 (List.replicate k 0 ++ δ :: List.replicate (l.length - k - 1) 0) =
          calcBlockCrc32 l ^^^ calcBlockCrc32 l := by
      rw [Nat.xor_assoc]
      exact congrArg (fun x => calcBlockCrc32 l ^^^ x) hcontra
    rw [Nat.xor_self, Nat.zero_xor] at h2
    exact h2
  exact calcBlockCrc32_onehot_ne hδlt hδne k (l.length - k - 1) hzero

/-! ## Derived-field expression guard — `safeEval`
(binary payload parser module of the backend).

`safeEval(expr, context)` substitutes decoded numeric field names into the
expression, rejects the result unless it matches `/^[\d\s+\-*\/().eE]+$/`
(returning `null`), and only then hands it to the numeric evaluator.
Claim C9 quantifies over the expression *after* substitution, so the model
takes the substituted string directly; the arithmetic evaluation of an
accepted string is abstracted as returning the accepted string (the claim
concerns which strings are rejected, not the numeric value). -/

/-- ECMAScript `\s`: WhiteSpace ∪ LineTerminator. -/
def isJsSpace (c : Char) : Bool :=
  c.toNat = 9 || c.toNat = 10 || c.toNat = 11 || c.toNat = 12 || c.toNat = 13 ||
    c.toNat = 32 || c.toNat = 0xA0 || c.toNat = 0x1680 ||
    (decide (0x2000 ≤ c.toNat) && decide (c.toNat ≤ 0x200A)) ||
    c.toNat = 0x2028 || c.toNat = 0x2029 || c.toNat = 0x202F ||
    c.toNat = 0x205F || c.toNat = 0x3000 || c.toNat = 0xFEFF

/-- The character class of `safeEval`'s guard regex `[\d\s+\-*\/().eE]`. -/
def safeEvalCharOk (c : Char) : Bool :=
  c.isDigit || isJsSpace c || c = '+' || c = '-' || c = '*' || c = '/' ||
    c = '(' || c = ')' || c = '.' || c = 'e' || c = 'E'

/-- `safeEval` on the already-substituted expression: `null` for the empty
string (`if (!expr) return null`), `null` unless every character is in the
guard class (the regex `/^[...]+$/`), otherwise the accepted string goes to
the numeric evaluator (abstracted as `some`). -/
def safeEval (expr : String) : Option String :=
  if expr = "" then none
  else if expr.data.all safeEvalCharOk then some expr else none

/-- The alphabet stated by the claim: digits, whitespace and `+ - * / ( )`
only (no `.`, `e`, `E`). -/
def claimC9CharOk (c : Char) : Bool :=
  c.isDigit || isJsSpace c || c = '+' || c = '-' || c = '*' || c = '/' ||
    c = '(' || c = ')'

/-- **C9 counterexample** — the substituted expression `"2.5"` contains a
character (`'.'`) outside the claim's alphabet, yet `safeEval` does not
reject it: the guard accepts it and the evaluator produces `2.5`, not
`null`.  (Decimal points and exponents are produced by the very
substitution of numeric field values, so the code's wider alphabet is
deliberate.) -/
theorem safeEval_claim_alphabet_false :
    safeEval "2.5" = some "2.5" ∧ '.' ∈ "2.5".data ∧ claimC9CharOk '.' = false := by
  refine ⟨rfl, ?_, rfl⟩
  simp [String.data]

/-- **C9 (amended)** — the evaluator's accepted alphabet is digits,
whitespace, `+ - * / ( )` *and* `. e E`: any substituted expression
containing a character outside that set is rejected with `null`, and
every accepted expression is nonempty and drawn entirely from that set
(nothing else ever reaches the arithmetic evaluator). -/
theorem safeEval_restricted (expr : String) :
    ((∃ c ∈ expr.data, safeEvalCharOk c = false) → safeEval expr = none) ∧
      (∀ s, safeEval expr = some s →
        s = expr ∧ expr ≠ "" ∧ expr.data.all safeEvalCharOk = true) := by
  constructor
  · rintro ⟨c, hmem, hbad⟩
    unfold safeEval
    split
    · rfl
    · rw [if_neg]
      intro hall
      rw [List.all_eq_true] at hall
      rw [hall c hmem] at hbad
      exact Bool.noConfusion hbad
  · intro s hs
    unfold safeEval at hs
    split at hs
    · exact absurd hs (by simp)
    · next hne =>
      split at hs
      · next hall => exact ⟨(Option.some_inj.mp hs).symm, hne, hall⟩
      · exact absurd hs (by simp)

/-- **C9 witness** — the amended rejection applied at `"abc"` (letters are
outside the alphabet). -/
theorem safeEval_restricted_witness : safeEval "abc" = none :=
  (safeEval_restricted "abc").1 ⟨'a', by simp [String.data], rfl⟩

/-! ## Protocol normalizer / router — `MessageRouter`

Subscription table (`_subs`), the `(msgId, sourceName)`-keyed ref-count map
(`_refCount`), `subscribe` / `unsubscribe`, and the binary-frame handler
`_onBinary`.  Message ids are modelled as numerals: the source coerces
numeric-string ids to numbers before comparing, and the template-string key
`` `${msgId}:${sourceName}` `` is injective on (numeral, name) pairs, so the
key is modelled as the pair itself.  JavaScript `Map` iteration/update
order is modelled by an association list (update in place, insert at the
end, delete removes). -/

inductive Cap
  | position | velocity | heading | satellites | imu | time
deriving DecidableEq, Repr

def allCaps : List Cap := [.position, .velocity, .heading, .satellites, .imu, .time]

/-- JavaScript `Map.get`, on an insertion-ordered association list. -/
def mapGet {α β : Type} [DecidableEq α] (m : List (α × β)) (k : α) : Option β :=
  (m.find? (fun p => decide (p.1 = k))).map (·.2)

/-- JavaScript `Map.set` : updates in place, appends new keys. -/
def mapSet {α β : Type} [DecidableEq α] (m : List (α × β)) (k : α) (v : β) :
    List (α × β) :=
  if m.any (fun p => decide (p.1 = k)) then
    m.map (fun p => if p.1 = k then (k, v) else p)
  else m ++ [(k, v)]

/-- JavaScript `Map.delete` -/
def mapDelete {α β : Type} [DecidableEq α] (m : List (α × β)) (k : α) :
    List (α × β) :=
  m.filter (fun p => decide (p.1 ≠ k))

structure RouterState where
  subs : List (Cap × List (Nat × String))
  refCount : List ((Nat × String) × Nat)
deriving DecidableEq, Repr

/-- Constructor state: the six capability lists empty, no ref counts. -/
def initRouter : RouterState :=
  ⟨allCaps.map (fun c => (c, [])), []⟩

def subsGet (st : RouterState) (cap : Cap) : List (Nat × String) :=
  ((st.subs.find? (fun p => decide (p.1 = cap))).map (·.2)).getD []

def subsSet (st : RouterState) (cap : Cap) (l : List (Nat × String)) : RouterState :=
  { st with subs := st.subs.map (fun p => if p.1 = cap then (cap, l) else p) }

/-- `MessageRouter.subscribe(capability, msgId, sourceName)`.  (`subsSet`
does not touch `refCount`, so the ref-count update reads
`st.refCount` directly.) -/
def subscribe (st : RouterState) (cap : Cap) (id : Nat) (src : String) : RouterState :=
  if (subsGet st cap).any (fun s => decide (s.1 = id ∧ s.2 = src)) then st
  else
    { subsSet st cap (subsGet st cap ++ [(id, src)]) with
        refCount := mapSet st.refCount (id, src) ((mapGet st.refCount (id, src)).getD 0 + 1) }

/-- The `(this._refCount.get(key) || 1)` read of `unsubscribe` (a stored `0`
or a missing key both read as `1`). -/
def refGetOr1 (m : List ((Nat × String) × Nat)) (k : Nat × String) : Nat :=
  match mapGet m k with
  | some v => if v = 0 then 1 else v
  | none => 1

/-- One ref-count decrement (`count = (get(key) || 1) - 1`; delete at zero,
store otherwise) — used by both `unsubscribe` branches. -/
def refDec (m : List ((Nat × String) × Nat)) (s : Nat × String) :
    List ((Nat × String) × Nat) :=
  if refGetOr1 m s - 1 = 0 then mapDelete m s else mapSet m s (refGetOr1 m s - 1)

/-- `MessageRouter.unsubscribe(capability, msgId, sourceName)` with a
concrete id/source (the targeted branch): filter the capability's list and
decrement the key's ref count. -/
def unsubscribe (st : RouterState) (cap : Cap) (id : Nat) (src : String) : RouterState :=
  { subsSet st cap ((subsGet st cap).filter (fun s => decide (¬(s.1 = id ∧ s.2 = src)))) with
      refCount := refDec st.refCount (id, src) }

/-- `MessageRouter.unsubscribe(capability, null, null)` (the
unsubscribe-all branch): decrement every subscription of the capability,
then clear its list. -/
def unsubscribeAll (st : RouterState) (cap : Cap) : RouterState :=
  subsSet { st with refCount := (subsGet st cap).foldl refDec st.refCount } cap []

inductive ROp
  | sub (cap : Cap) (id : Nat) (src : String)
  | unsub (cap : Cap) (id : Nat) (src : String)
  | unsubAll (cap : Cap)

def applyROp (st : RouterState) : ROp → RouterState
  | .sub cap id src => subscribe st cap id src
  | .unsub cap id src => unsubscribe st cap id src
  | .unsubAll cap => unsubscribeAll st cap

def applyROps (st : RouterState) (ops : List ROp) : RouterState :=
  ops.foldl applyROp st

/-! ### Ref-count positivity -/

/-- All stored ref counts are strictly positive. -/
def RefPos (m : List ((Nat × String) × Nat)) : Prop := ∀ kv ∈ m, 0 < kv.2

theorem refPos_mapSet {m : List ((Nat × String) × Nat)} {k v}
    (hm : RefPos m) (hv : 0 < v) : RefPos (mapSet m k v) := by
  intro kv hkv
  unfold mapSet at hkv
  split at hkv
  · rcases List.mem_map.mp hkv with ⟨p, hp, heq⟩
    by_cases h : p.1 = k
    · rw [if_pos h] at heq
      rw [← heq]
      exact hv
    · rw [if_neg h] at heq
      rw [← heq]
      exact hm p hp
  · rcases List.mem_append.mp hkv with h | h
    · exact hm kv h
    · rw [List.mem_singleton.mp h]
      exact hv

theorem refPos_mapDelete {m : List ((Nat × String) × Nat)} {k}
    (hm : RefPos m) : RefPos (mapDelete m k) := by
  intro kv hkv
  exact hm kv (List.mem_of_mem_filter hkv)

theorem refPos_subscribe {st : RouterState} (h : RefPos st.refCount)
    (cap : Cap) (id : Nat) (src : String) : RefPos (subscribe st cap id src).refCount := by
  unfold subscribe
  split
  · exact h
  · exact refPos_mapSet h (Nat.succ_pos _)

theorem refPos_refDec {m : List ((Nat × String) × Nat)} (hm : RefPos m)
    (s : Nat × String) : RefPos (refDec m s) := by
  unfold refDec
  split
  · exact refPos_mapDelete hm
  · next hne => exact refPos_mapSet hm (by omega)

theorem refPos_unsubscribe {st : RouterState} (h : RefPos st.refCount)
    (cap : Cap) (id : Nat) (src : String) :
    RefPos (unsubscribe st cap id src).refCount := by
  unfold unsubscribe
  exact refPos_refDec h _

theorem refPos_foldl_refDec (l : List (Nat × String)) :
    ∀ m, RefPos m → RefPos (l.foldl refDec m) := by
  induction l with
  | nil => intro m h; exact h
  | cons s rest ih =>
    intro m h
    rw [List.foldl_cons]
    exact ih _ (refPos_refDec h s)

theorem refPos_unsubscribeAll {st : RouterState} (h : RefPos st.refCount)
    (cap : Cap) : RefPos (unsubscribeAll st cap).refCount := by
  unfold unsubscribeAll
  exact refPos_foldl_refDec _ _ h

theorem refPos_applyROps : ∀ (ops : List ROp) (st : RouterState),
    RefPos st.refCount → RefPos (applyROps st ops).refCount := by
  intro ops
  induction ops with
  | nil => intro st h; exact h
  | cons op rest ih =>
    intro st h
    rw [applyROps, List.foldl_cons]
    apply ih
    cases op with
    | sub cap id src => exact refPos_subscribe h cap id src
    | unsub cap id src => exact refPos_unsubscribe h cap id src
    | unsubAll cap => exact refPos_unsubscribeAll h cap

/-- **C8 counterexample** — two *identical* subscribe calls for the key
`(42, "A")` leave its ref count at 1, not 2: the duplicate-subscription
check returns before the ref count is touched. -/
theorem refCount_double_subscribe_one :
    mapGet (applyROps initRouter [.sub .position 42 "A", .sub .position 42 "A"]).refCount
        (42, "A") = some 1 ∧ (1 : Nat) ≠ 2 := by
  constructor
  · rfl
  · decide

/-- **C8 (amended)** — ref-count behaviour of the router: a repeated
subscribe of the same `(capability, id, source)` triple is a no-op; two
subscribes for the key `(42,"A")` from *distinct* capabilities bring its
count to 2; two subsequent unsubscribes bring it to 0 and remove the entry;
and after any sequence of subscribe/unsubscribe operations every stored
ref-count value is strictly positive. -/
theorem refCount_behaviour :
    (applyROps initRouter [.sub .position 42 "A", .sub .position 42 "A"] =
        applyROps initRouter [.sub .position 42 "A"]) ∧
      (mapGet (applyROps initRouter [.sub .position 42 "A", .sub .velocity 42 "A"]).refCount
          (42, "A") = some 2) ∧
      (mapGet (applyROps initRouter [.sub .position 42 "A", .sub .velocity 42 "A",
          .unsub .position 42 "A", .unsub .velocity 42 "A"]).refCount (42, "A") = none) ∧
      (∀ (ops : List ROp), ∀ kv ∈ (applyROps initRouter ops).refCount, 0 < kv.2) := by
  refine ⟨rfl, rfl, rfl, ?_⟩
  intro ops
  exact refPos_applyROps ops initRouter (by intro kv hkv; simp [initRouter] at hkv)

/-- **C8 witness** — the invariant applied at a concrete operation list and
map entry. -/
theorem refCount_behaviour_witness :
    ((1, "A"), 1) ∈ (applyROps initRouter [.sub .position 1 "A"]).refCount ∧
      0 < (((1, "A"), 1) : (Nat × String) × Nat).2 :=
  ⟨by decide, refCount_behaviour.2.2.2 [.sub .position 1 "A"] ((1, "A"), 1) (by decide)⟩

/-! ### Binary frame handling — `MessageRouter._onBinary`

The decode-and-normalize pipeline (`parseBinaryPayload`, `_flattenFields`,
`_normalize`) is schema-driven: the schema files are an injected lookup
service, so the pipeline is a parameter `decode` returning `none` for
unknown ids (no event) and the normalized event value otherwise. -/

structure BinFrame where
  ok : Bool
  id : Option Nat
  payload : Option (List Nat)
  crc : Nat

/-- `MessageRouter._onBinary(frame)`: CRC-failed frames return immediately;
otherwise each capability's subscriptions matching the numeric id are
decoded and emitted.  The router state is never written. -/
def onBinary {V : Type} (decode : Nat → List Nat → Nat → Option V)
    (st : RouterState) (f : BinFrame) : RouterState × List (Cap × V) :=
  if f.ok = false then (st, [])
  else
    match f.id, f.payload with
    | some id, some payload =>
      (st, st.subs.foldr (fun p acc =>
        p.2.filterMap (fun s =>
          if s.1 = id then (decode id payload f.crc).map (fun v => (p.1, v)) else none)
          ++ acc) [])
    | _, _ => (st, [])

/-- **C10** — a binary frame event with `crcOk = false` produces no
capability event and leaves the subscription tables and ref-count map
unchanged: the handler returns before decoding. -/
theorem onBinary_crc_failed {V : Type} (decode : Nat → List Nat → Nat → Option V)
    (st : RouterState) (f : BinFrame) (h : f.ok = false) :
    onBinary decode st f = (st, []) := by
  unfold onBinary
  rw [if_pos h]

/-- **C10 witness** — the theorem applied at a concrete frame and state. -/
theorem onBinary_crc_failed_witness :
    onBinary (fun (_ : Nat) (_ : List Nat) (_ : Nat) => (none : Option Unit))
        initRouter ⟨false, some 43, some [1, 2], 0⟩ = (initRouter, []) :=
  onBinary_crc_failed _ initRouter _ rfl

/-! ## NTRIP client — `src/backend/ntrip-client.js`

### RTCM statistics scanner (`_extractRtcmIds` / `_onRtcmData`)

`_onRtcmData(buf)` updates byte counters, runs `_extractRtcmIds(buf)` over
the chunk, and forwards the chunk unchanged to the device connection.  The
scanner is a fuel-indexed loop (`fuel = buf.length` dominates the iteration
count: the index strictly increases each round and stops at
`buf.length - 3`).  Timestamps (`lastRtcmTime`, `bytesSinceLastStat`) are
wall-clock bookkeeping and not modelled. -/

structure RtcmStats where
  bytesReceived : Nat
  rtcmMessages : Nat
  rtcmTypes : List (Nat × Nat)
deriving DecidableEq, Repr

def initStats : RtcmStats := ⟨0, 0, []⟩

/-- The `while (i < buf.length - 3)` loop of `_extractRtcmIds` (note the
truncated `Nat` subtraction agrees with the JavaScript signed comparison:
for `buf.length ≤ 3` the loop never runs). -/
def extractLoop : Nat → List Nat → Nat → RtcmStats → RtcmStats
  | 0, _, _, st => st
  | fuel + 1, buf, i, st =>
    if i < buf.length - 3 then
      if buf.getD i 0 = 0xD3 then
        if 0 < ((buf.getD (i + 1) 0 &&& 0x03) <<< 8 ||| buf.getD (i + 2) 0) ∧
            ((buf.getD (i + 1) 0 &&& 0x03) <<< 8 ||| buf.getD (i + 2) 0) < 1024 ∧
            i + 3 + ((buf.getD (i + 1) 0 &&& 0x03) <<< 8 ||| buf.getD (i + 2) 0) ≤ buf.length then
          extractLoop fuel buf
            (i + 3 + ((buf.getD (i + 1) 0 &&& 0x03) <<< 8 ||| buf.getD (i + 2) 0) + 3)
            (if 0 < (buf.getD (i + 3) 0 <<< 4 ||| (buf.getD (i + 4) 0 >>> 4) &&& 0x0F) ∧
                (buf.getD (i + 3) 0 <<< 4 ||| (buf.getD (i + 4) 0 >>> 4) &&& 0x0F) < 4096 then
              { st with
                rtcmTypes := mapSet st.rtcmTypes
                  (buf.getD (i + 3) 0 <<< 4 ||| (buf.getD (i + 4) 0 >>> 4) &&& 0x0F)
                  ((mapGet st.rtcmTypes
                    (buf.getD (i + 3) 0 <<< 4 ||| (buf.getD (i + 4) 0 >>> 4) &&& 0x0F)).getD 0 + 1),
                rtcmMessages := st.rtcmMessages + 1 }
            else st)
        else extractLoop fuel buf (i + 1) st
      else extractLoop fuel buf (i + 1) st
    else st

/-- `NtripClient._extractRtcmIds(buf)`. -/
def extractRtcmIds (buf : List Nat) (st : RtcmStats) : RtcmStats :=
  extractLoop buf.length buf 0 st

/-- `NtripClient._onRtcmData(buf)`: update counters, scan for statistics,
forward the chunk byte-for-byte (the returned list is what is written to
the device connection). -/
def onRtcmData (st : RtcmStats) (buf : List Nat) : RtcmStats × List Nat :=
  (extractRtcmIds buf { st with bytesReceived := st.bytesReceived + buf.length }, buf)

/-- A complete 10-byte RTCM frame (type 1021, 4-byte payload, valid
CRC-24Q trailer). -/
def rtcmFrameEx : List Nat :=
  [0xD3, 0x00, 0x04, 0x3F, 0xD0, 0x00, 0x00] ++
    toBE3 (crc24q [0xD3, 0x00, 0x04, 0x3F, 0xD0, 0x00, 0x00])

/-- **C6 counterexample** — the RTCM message `rtcmFrameEx` split after its
6th byte (mid-payload): the scanner neither leaves the trailing fragment
pending nor counts the message when the remainder arrives — fed as one
chunk the message is counted once, fed as the two chunks it is never
counted (the scanner keeps no state across chunks), contradicting the
claimed count of exactly 1. -/
theorem extractRtcmIds_split_loses_count :
    (extractRtcmIds rtcmFrameEx initStats).rtcmMessages = 1 ∧
      (extractRtcmIds (rtcmFrameEx.drop 6)
        (extractRtcmIds (rtcmFrameEx.take 6) initStats)).rtcmMessages = 0 ∧
      (0 : Nat) ≠ 1 := by
  refine ⟨rfl, rfl, by decide⟩

/-! ### Handshake and close handling (`_handleHandshake` / `_onClose`)

The handshake state of `NtripClient` is modelled by the fields the claim
touches: auto-reconnect flag, connection flag, handshake progress, header
accumulation buffer, socket/timer status and whether a config is present
(`connect(config)` always stores one).  `resolve` is modelled by the
optional `ConnectResult` returned from the handler. -/

/-- Case-insensitive match of `pat` (given lowercase) at position `i`. -/
def matchCI (l : List Char) (i : Nat) (pat : List Char) : Bool :=
  ((l.drop i).take pat.length).map Char.toLower = pat

/-- Plain (case-sensitive) match of `pat` at position `i`. -/
def matchAt (l : List Char) (i : Nat) (pat : List Char) : Bool :=
  (l.drop i).take pat.length = pat

/-- `String.indexOf(pat)`: earliest match position. -/
def findSubIdx (l pat : List Char) : Option Nat :=
  (List.range (l.length + 1)).find? (fun i => matchAt l i pat)

/-- `/ICY 200 OK/i.test(header)` -/
def testICY200 (l : List Char) : Bool :=
  (List.range (l.length + 1)).any (fun i => matchCI l i "icy 200 ok".data)

/-- `/HTTP\/1\.\d 200/i.test(header)` -/
def testHTTP200 (l : List Char) : Bool :=
  (List.range (l.length + 1)).any (fun i =>
    matchCI l i "http/1.".data && (l.getD (i + 7) ' ').isDigit &&
      matchAt l (i + 8) " 200".data)

/-- The success test of `_handleHandshake` over the whole header block. -/
def test200 (header : List Char) : Bool := testICY200 header || testHTTP200 header

/-- `header.split('\r\n')[0]`, with the `|| 'Unknown error'` fallback. -/
def statusLineOf (header : List Char) : List Char :=
  match findSubIdx header ['\r', '\n'] with
  | some j => header.take j
  | none => header

def statusLineOrUnknown (header : List Char) : List Char :=
  if statusLineOf header = [] then "Unknown error".data else statusLineOf header

structure NtripState where
  autoReconnect : Bool
  connected : Bool
  handshakeDone : Bool
  headerBuf : String
  socketDestroyed : Bool
  configSet : Bool
  ggaTimer : Bool
  statsTimer : Bool
  reconnectTimer : Bool
deriving DecidableEq, Repr

structure ConnectResult where
  ok : Bool
  error : Option String
deriving DecidableEq, Repr

/-- The state `connect(config)` sets up before any data arrives:
auto-reconnect enabled, config stored, handshake pending, header buffer
empty. -/
def initNtrip : NtripState :=
  { autoReconnect := true, connected := false, handshakeDone := false,
    headerBuf := "", socketDestroyed := false, configSet := true,
    ggaTimer := false, statsTimer := false, reconnectTimer := false }

/-- `NtripClient._handleHandshake(buf, resolve)`: accumulate into the header
buffer; once the `\r\n\r\n` terminator appears, either transition to
streaming (200/ICY marker anywhere in the header block) resolving
`{ok:true}` and forwarding post-header bytes, or disable auto-reconnect,
destroy the socket and resolve `{ok:false}` carrying the status line.
Returns `(state, resolution?, forwarded-remainder)`. -/
def handleHandshake (st : NtripState) (chunk : String) :
    NtripState × Option ConnectResult × String :=
  match findSubIdx (st.headerBuf ++ chunk).data ['\r', '\n', '\r', '\n'] with
  | none => ({ st with headerBuf := st.headerBuf ++ chunk }, none, "")
  | some headerEnd =>
    if test200 ((st.headerBuf ++ chunk).data.take headerEnd) then
      ({ st with
          handshakeDone := true, headerBuf := "", connected := true,
          ggaTimer := true, statsTimer := true },
        some ⟨true, none⟩,
        String.mk ((st.headerBuf ++ chunk).data.drop (headerEnd + 4)))
    else
      ({ st with
          handshakeDone := true, headerBuf := "",
          autoReconnect := false, socketDestroyed := true },
        some ⟨false, some ("NTRIP rejected: " ++
          String.mk (statusLineOrUnknown ((st.headerBuf ++ chunk).data.take headerEnd)))⟩,
        "")

/-- `NtripClient._onClose()`: cleanup (timers stopped, socket destroyed),
then schedule a reconnect only when auto-reconnect is still enabled and a
config is present.  The returned `Bool` is "a reconnect was scheduled". -/
def onClose (st : NtripState) : NtripState × Bool :=
  if ({ st with
      ggaTimer := false, statsTimer := false, reconnectTimer := false,
      socketDestroyed := true, handshakeDone := false, headerBuf := "",
      connected := false } : NtripState).autoReconnect ∧ st.configSet then
    ({ st with
        ggaTimer := false, statsTimer := false,
        socketDestroyed := true, handshakeDone := false, headerBuf := "",
        connected := false, reconnectTimer := true }, true)
  else
    ({ st with
        ggaTimer := false, statsTimer := false, reconnectTimer := false,
        socketDestroyed := true, handshakeDone := false, headerBuf := "",
        connected := false }, false)

theorem string_empty_append (s : String) : "" ++ s = s := by
  cases s
  rfl

/-- **C7 counterexample** — a handshake response whose *status line* is
`HTTP/1.0 401 Unauthorized` (not a 200/ICY success) but whose later header
line contains an `HTTP/1.0 200` marker: the code tests the whole header
block, so `connect()` resolves `{ok:true}` and transitions to streaming,
contradicting the claim for this response. -/
theorem handshake_status_line_not_checked :
    (handleHandshake initNtrip
        "HTTP/1.0 401 Unauthorized\r\nFake: HTTP/1.0 200\r\n\r\n").2.1 =
      some ⟨true, none⟩ ∧
    test200 (statusLineOf
        ("HTTP/1.0 401 Unauthorized\r\nFake: HTTP/1.0 200\r\n\r\n".data.take 44)) = false := by
  constructor
  · rfl
  · decide

/-- **C7 (amended)** — for every handshake response whose *header block*
(all bytes before the blank line) nowhere contains an `ICY 200 OK` or
`HTTP/1.x 200` marker — e.g. `HTTP/1.0 401 Unauthorized\r\n\r\n` —
`connect()` resolves `{ok:false, error}` carrying the status line,
auto-reconnect is disabled, the socket is destroyed, and a subsequent
socket-close event schedules no reconnect (auto-reconnect stays disabled,
so no later close schedules one either). -/
theorem handshake_rejected (chunk : String) (headerEnd : Nat)
    (hfind : findSubIdx chunk.data ['\r', '\n', '\r', '\n'] = some headerEnd)
    (hfail : test200 (chunk.data.take headerEnd) = false) :
    (handleHandshake initNtrip chunk =
      ({ initNtrip with
          handshakeDone := true, headerBuf := "",
          autoReconnect := false, socketDestroyed := true },
        some ⟨false, some ("NTRIP rejected: " ++
          String.mk (statusLineOrUnknown (chunk.data.take headerEnd)))⟩, "")) ∧
    (onClose (handleHandshake initNtrip chunk).1).2 = false ∧
    (onClose (handleHandshake initNtrip chunk).1).1.autoReconnect = false ∧
    (onClose (handleHandshake initNtrip chunk).1).1.reconnectTimer = false ∧
    (∀ st : NtripState, st.autoReconnect = false →
      (onClose st).2 = false ∧ (onClose st).1.autoReconnect = false) := by
  have hmain : handleHandshake initNtrip chunk =
      ({ initNtrip with
          handshakeDone := true, headerBuf := "",
          autoReconnect := false, socketDestroyed := true },
        some ⟨false, some ("NTRIP rejected: " ++
          String.mk (statusLineOrUnknown (chunk.data.take headerEnd)))⟩, "") := by
    unfold handleHandshake
    have hh : initNtrip.headerBuf ++ chunk = chunk := string_empty_append chunk
    rw [hh, hfind]
    simp [hfail]
  have hclose : ∀ st : NtripState, st.autoReconnect = false →
      (onClose st).2 = false ∧ (onClose st).1.autoReconnect = false := by
    intro st hst
    unfold onClose
    rw [if_neg]
    · exact ⟨rfl, hst⟩
    · intro hcontra
      rw [hst] at hcontra
      exact Bool.noConfusion hcontra.1
  refine ⟨hmain, ?_, ?_, ?_, hclose⟩
  · rw [hmain]
    exact (hclose _ rfl).1
  · rw [hmain]
    exact (hclose _ rfl).2
  · rw [hmain]
    unfold onClose
    rw [if_neg]
    intro hcontra
    exact Bool.noConfusion hcontra.1

/-- **C7 witness** — the amended statement at the plain
`HTTP/1.0 401 Unauthorized\r\n\r\n` response. -/
theorem handshake_rejected_witness :
    (handleHandshake initNtrip "HTTP/1.0 401 Unauthorized\r\n\r\n" =
      ({ initNtrip with
          handshakeDone := true, headerBuf := "",
          autoReconnect := false, socketDestroyed := true },
        some ⟨false, some ("NTRIP rejected: " ++
          String.mk (statusLineOrUnknown
            ("HTTP/1.0 401 Unauthorized\r\n\r\n".data.take 25)))⟩, "")) ∧
    (onClose (handleHandshake initNtrip "HTTP/1.0 401 Unauthorized\r\n\r\n").1).2 = false :=
  have h := handshake_rejected "HTTP/1.0 401 Unauthorized\r\n\r\n" 25 (by decide) (by decide)
  ⟨h.1, h.2.1⟩

/-! ## Device query state machine — `DeviceQuery`
(`src/backend/device-query.js`, `_requestWithRetry` / `_doRequest` /
`_finish` and the `_resolve` wrapper installed by `_doRequest`).

The event-driven instance is modelled as an explicit state record plus an
event interpreter.  Pending `setTimeout` callbacks are modelled as state
flags/slots whose firing is an explicit event (single-threaded reactor);
promise resolvers are modelled by numeric caller ids, and resolving a
caller appends to the output's `resolved` list.  The response-line
classifiers (`_onComconfigLine` …) and parsers (`_parseComconfig` …)
interpret device responses; they play no role in the request-lifecycle
claims and are abstracted as the `QEnv` parameters (any functions). -/

inductive ReqType
  | comconfig | icomconfig | loglista
deriving DecidableEq, Repr

/-- A parse result: `{ports: [...]}` or `{entries: [...]}` objects, with the
`error` field read by the resolver wrapper (never set in this module).
Ports/entries records are abstracted to strings. -/
structure QResult where
  ports : Option (List String)
  entries : Option (List String)
  error : Bool
deriving DecidableEq, Repr

/-- `DeviceQuery._emptyResult(type)`. -/
def emptyResult : ReqType → QResult
  | .loglista => ⟨none, some [], false⟩
  | _ => ⟨some [], none, false⟩

/-- The fixed single-line command of each request type. -/
def cmdOf : ReqType → String
  | .comconfig => "LOG COMCONFIG ONCE"
  | .icomconfig => "LOG ICOMCONFIG ONCE"
  | .loglista => "LOG LOGLISTA ONCE"

structure QState where
  mode : Option ReqType
  buffer : List String
  retryCount : Nat
  resolver : Option (ReqType × Nat)
  retryTimer : Option (ReqType × Nat)
  timeoutSet : Bool
  settleSet : Bool
  loglistaCooldownUntil : Nat
  lastLoglista : Option QResult
  now : Nat
deriving DecidableEq, Repr

/-- Constructor state of `DeviceQuery`. -/
def initQ : QState :=
  { mode := none, buffer := [], retryCount := 0, resolver := none,
    retryTimer := none, timeoutSet := false, settleSet := false,
    loglistaCooldownUntil := 0, lastLoglista := none, now := 0 }

/-- Observable outputs of a step: commands written to the transport and
promise resolutions `(caller, result)`. -/
structure QOut where
  sent : List String
  resolved : List (Nat × QResult)
deriving DecidableEq, Repr

/-- Abstracted response interpretation (classifiers and parsers of
`device-query.js` lines 104–411). -/
structure QEnv where
  parseCom : List String → List String
  parseIcom : List String → List String
  parseLog : List String → List String
  classify : ReqType → String → Bool

/-- The emptiness test of the `_resolve` wrapper (a result of the *other*
shape reads the missing field as undefined, hence empty). -/
def isEmptyFor (t : ReqType) (r : QResult) : Bool :=
  match t with
  | .loglista => match r.entries with | none => true | some l => l.isEmpty
  | _ => match r.ports with | none => true | some l => l.isEmpty

def MAX_RETRIES : Nat := 2
def LOGLISTA_COOLDOWN_MS : Nat := 1000

/-- The `_resolve` wrapper installed by `_doRequest(type, finalResolve)`:
on an empty, error-free result within the retry budget, bump the retry
counter and (re)arm the retry timer instead of resolving; otherwise cache a
non-empty LOGLISTA result with its cooldown expiry and resolve the caller. -/
def resolveWrapper (st : QState) (t : ReqType) (caller : Nat) (r : QResult) :
    QState × QOut :=
  if isEmptyFor t r = true ∧ r.error = false ∧ st.retryCount < MAX_RETRIES then
    ({ st with retryCount := st.retryCount + 1, retryTimer := some (t, caller) }, ⟨[], []⟩)
  else
    if t = .loglista ∧ (match r.entries with | some l => !l.isEmpty | none => false) = true then
      ({ st with
          lastLoglista := some r,
          loglistaCooldownUntil := st.now + LOGLISTA_COOLDOWN_MS }, ⟨[], [(caller, r)]⟩)
    else (st, ⟨[], [(caller, r)]⟩)

/-- `DeviceQuery._finish(result)`: clear the settle/hard timers, reset
mode/buffer/resolver, then run the saved resolver wrapper. -/
def finish (st : QState) (r : QResult) : QState × QOut :=
  match st.resolver with
  | some (t, c) =>
    resolveWrapper { st with
      timeoutSet := false, settleSet := false,
      mode := none, buffer := [], resolver := none } t c r
  | none =>
    ({ st with
        timeoutSet := false, settleSet := false,
        mode := none, buffer := [], resolver := none }, ⟨[], []⟩)

/-- `DeviceQuery._doRequest(type, finalResolve)`: pre-empt any in-flight
request by finishing it with an empty result, serve LOGLISTA from the
cooldown cache, otherwise install mode/buffer/resolver, transmit the
command and arm the hard timeout. -/
def doRequest (st : QState) (t : ReqType) (caller : Nat) : QState × QOut :=
  match (if st.mode.isSome then finish st (emptyResult t) else (st, ⟨[], []⟩)) with
  | (st₁, out₁) =>
    if t = .loglista ∧ st₁.now < st₁.loglistaCooldownUntil then
      (st₁, ⟨out₁.sent, out₁.resolved ++ [(caller, st₁.lastLoglista.getD ⟨none, some [], false⟩)]⟩)
    else
      ({ st₁ with
          mode := some t, buffer := [], resolver := some (t, caller),
          timeoutSet := true },
        ⟨out₁.sent ++ [cmdOf t], out₁.resolved⟩)

/-- `DeviceQuery._requestWithRetry(type)` : reset the retry counter and run
`_doRequest` for a fresh caller. -/
def requestWithRetry (st : QState) (t : ReqType) (caller : Nat) : QState × QOut :=
  doRequest { st with retryCount := 0 } t caller

/-- `_parseCurrentBuffer(type)` via the abstracted parsers. -/
def parseCurrent (env : QEnv) (t : ReqType) (buf : List String) : QResult :=
  match t with
  | .comconfig => ⟨some (env.parseCom buf), none, false⟩
  | .icomconfig => ⟨some (env.parseIcom buf), none, false⟩
  | .loglista => ⟨none, some (env.parseLog buf), false⟩

/-- Reactor events touching the device-query component. -/
inductive QEvent
  | request (t : ReqType) (caller : Nat)
  | lineArrive (s : String)
  | settleFire
  | timeoutFire
  | retryFire

/-- One reactor turn. -/
def qstep (env : QEnv) (st : QState) : QEvent → QState × QOut
  | .request t caller => requestWithRetry st t caller
  | .lineArrive s =>
    match st.mode with
    | some t =>
      if env.classify t s then
        ({ st with buffer := st.buffer ++ [s], settleSet := true }, ⟨[], []⟩)
      else (st, ⟨[], []⟩)
    | none => (st, ⟨[], []⟩)
  | .settleFire =>
    match st.mode with
    | some t =>
      if st.settleSet then finish st (parseCurrent env t st.buffer) else (st, ⟨[], []⟩)
    | none => (st, ⟨[], []⟩)
  | .timeoutFire =>
    match st.mode with
    | some t =>
      if st.timeoutSet then finish st (parseCurrent env t st.buffer) else (st, ⟨[], []⟩)
    | none => (st, ⟨[], []⟩)
  | .retryFire =>
    match st.retryTimer with
    | some (t, caller) => doRequest { st with retryTimer := none } t caller
    | none => (st, ⟨[], []⟩)

/-- Run a sequence of reactor events, concatenating outputs. -/
def runQ (env : QEnv) (st : QState) : List QEvent → QState × QOut
  | [] => (st, ⟨[], []⟩)
  | e :: rest =>
    match qstep env st e with
    | (st', out) =>
      match runQ env st' rest with
      | (st'', out') => (st'', ⟨out.sent ++ out'.sent, out.resolved ++ out'.resolved⟩)

/-- A concrete trivial environment for closed evaluations. -/
def qenvTrivial : QEnv := ⟨fun _ => [], fun _ => [], fun _ => [], fun _ _ => false⟩

/-- **C1 counterexample** — two `requestComconfig()` calls issued before any
response transmit `LOG COMCONFIG ONCE` *twice*, not once, and neither
caller has been resolved by a shared result: there is no coalescing. -/
theorem deviceQuery_no_coalescing :
    (runQ qenvTrivial initQ [.request .comconfig 1, .request .comconfig 2]).2.sent =
        ["LOG COMCONFIG ONCE", "LOG COMCONFIG ONCE"] ∧
      (runQ qenvTrivial initQ [.request .comconfig 1, .request .comconfig 2]).2.sent.length ≠ 1 ∧
      (runQ qenvTrivial initQ [.request .comconfig 1, .request .comconfig 2]).2.resolved = [] := by
  refine ⟨rfl, by decide, rfl⟩

/-- **C1 (amended)** — same-type requests are *not* coalesced: a second
request of the same type issued while one is in flight pre-empts it —
`_doRequest` finishes the in-flight request immediately with an empty
result, whose resolver wrapper schedules a *retry* for the first caller
(rather than resolving it from a shared exchange) — and the device command
is transmitted again for the new request.  After two back-to-back requests
of any type: the command was sent exactly twice, no caller is resolved yet,
the first caller sits in the armed retry timer (whose firing will send the
command a third time), and the second caller owns the in-flight slot. -/
theorem deviceQuery_preemption (env : QEnv) (t : ReqType) (c₁ c₂ : Nat) :
    runQ env initQ [.request t c₁, .request t c₂] =
      ({ initQ with
          mode := some t, resolver := some (t, c₂), retryCount := 1,
          retryTimer := some (t, c₁), timeoutSet := true },
        ⟨[cmdOf t, cmdOf t], []⟩) ∧
    (qstep env (runQ env initQ [.request t c₁, .request t c₂]).1 .retryFire).2.sent =
      [cmdOf t] := by
  cases t <;> exact ⟨rfl, rfl⟩

/-! ## Stream demultiplexer — `SerialManager._processBuffer` / `_onData`
(`src/backend/serial-manager.js` lines 175–285).

`_onData` appends the chunk to the accumulation buffer and runs
`_processBuffer`, a loop-until-no-progress over the buffer.  Every
progressing iteration strictly shrinks the buffer, so the loop is modelled
with a fuel equal to the buffer length (`processBuffer`); `demuxStep` is
one loop iteration with the continuation abstracted.

Faithfulness notes:
* Frame events are the typed `binary` / `rtcm` / `line` emissions.  The
  colour-coded `line` echoes the source also emits alongside binary/RTCM
  frames (hex dump, `[RTCM …]` summaries) are terminal logging and are not
  modelled as frame events.
* `TextLine` content is the consumed byte slice trimmed at both ends (the
  source decodes UTF-8 then trims; over the ASCII range this is the same).
  The event also records the number of consumed raw bytes.
* A well-formed-looking binary header with `headerLen + payloadLen < 10`
  makes `payloadWithHeader.readUInt16LE(...)` throw a `RangeError` in the
  source, leaving the buffer untouched; that path is marked by `err` and
  stops processing with the buffer intact.
* `dropped` counts bytes discarded by the RTCM resynchronization paths
  (skip to the preamble, skip one byte on an invalid length); `trimmed`
  counts bytes removed by the bounded (> 4096) trim.  They are byte
  accounting for the conservation claims and carried alongside the
  source's observable outputs. -/

inductive Ev where
  | binary (crcOk : Bool) (id : Nat) (payload : List Nat) (raw : List Nat) (crc : Nat)
  | rtcm (crcOk : Bool) (id : Option Nat) (sid : Option Nat) (len : Nat) (total : Nat)
  | line (text : List Nat) (rawLen : Nat)
deriving DecidableEq, Repr

structure DemuxOut where
  events : List Ev
  rest : List Nat
  dropped : Nat
  trimmed : Nat
  err : Bool
deriving DecidableEq, Repr

def stop (buf : List Nat) : DemuxOut := ⟨[], buf, 0, 0, false⟩

def stopErr (buf : List Nat) : DemuxOut := ⟨[], buf, 0, 0, true⟩

def pushEv (e : Ev) (o : DemuxOut) : DemuxOut := { o with events := e :: o.events }

def addDropped (n : Nat) (o : DemuxOut) : DemuxOut := { o with dropped := n + o.dropped }

/-- ASCII whitespace bytes removed by `String.trim` (the source trims the
UTF-8 decoding; over ASCII bytes these coincide). -/
def isWsByte (b : Nat) : Bool :=
  b == 9 || b == 10 || b == 11 || b == 12 || b == 13 || b == 32

def trimBytes (l : List Nat) : List Nat :=
  ((l.dropWhile isWsByte).reverse.dropWhile isWsByte).reverse

/-- `BitReader.read`: MSB-first bit accumulation starting at bit `pos`. -/
def bitReadAux : List Nat → Nat → Nat → Nat → Nat
  | _, _, 0, acc => acc
  | data, pos, n + 1, acc =>
    bitReadAux data (pos + 1) n (acc * 2 + ((data.getD (pos / 8) 0 >>> (7 - pos % 8)) &&& 1))

def bitRead (data : List Nat) (start n : Nat) : Nat := bitReadAux data start n 0

def MSM_RANGES : List (Nat × Nat) :=
  [(1071, 1077), (1081, 1087), (1091, 1097), (1111, 1117), (1121, 1127)]

def isMSM (id : Nat) : Bool :=
  MSM_RANGES.any (fun r => decide (r.1 ≤ id) && decide (id ≤ r.2))

/-- The station-id-bearing message types of the RTCM branch. -/
def rtcmStation (m : Nat) : Bool :=
  [1005, 1006, 1007, 1008, 1033, 1019, 1020, 1230].contains m || isMSM m

/-- slice, CRC check and 12-bit decode of one complete RTCM frame
(`frame.length = 1 + 2 + len + 3`); a `BitReader` EOF is caught in the
source, leaving `id`/`sid` null. -/
def rtcmEvent (frame : List Nat) (len : Nat) : Ev :=
  Ev.rtcm
    ((frame.getD (len + 3) 0 <<< 16 ||| frame.getD (len + 4) 0 <<< 8 |||
        frame.getD (len + 5) 0) == crc24q (frame.take (len + 3)))
    (if 12 ≤ 8 * len then some (bitRead ((frame.drop 3).take len) 0 12) else none)
    (if 12 ≤ 8 * len then
      (if rtcmStation (bitRead ((frame.drop 3).take len) 0 12) = true ∧ 24 ≤ 8 * len then
        some (bitRead ((frame.drop 3).take len) 12 12)
      else none)
    else none)
    len (1 + 2 + len + 3)

/-- The payload slice of a binary frame body (`pStart = body[3]`,
`pLen = body.readUInt16LE(8)`, empty when out of range). -/
def payloadOf (body : List Nat) : List Nat :=
  if body.getD 3 0 + readU16LE body 8 ≤ body.length then
    (body.drop (body.getD 3 0)).take (readU16LE body 8)
  else []

/-- The BYNAV binary branch of `_processBuffer` (preamble already
matched): wait for the header, wait for the whole frame, slice it, check
`calcBlockCrc32`, emit (never drop) and continue on the remainder. -/
def binBranch (recur : List Nat → DemuxOut) (buf : List Nat) : DemuxOut :=
  if buf.length < 28 then stop buf else
  match buf.getD 3 0, readU16LE buf 8 with
  | headerLen, payloadLen =>
    if buf.length < max 12 (headerLen + 4) then stop buf else
    if buf.length < headerLen + payloadLen + 4 then stop buf else
    if headerLen + payloadLen < 10 then stopErr buf else
    match buf.take (headerLen + payloadLen + 4) with
    | msg =>
      pushEv
        (Ev.binary
          (readU32LE msg (headerLen + payloadLen) ==
            calcBlockCrc32 (msg.take (headerLen + payloadLen)))
          (readU16LE (msg.take (headerLen + payloadLen)) 4)
          (payloadOf (msg.take (headerLen + payloadLen)))
          msg
          (readU32LE msg (headerLen + payloadLen)))
        (recur (buf.drop (headerLen + payloadLen + 4)))

/-- The RTCM branch of `_processBuffer` with the preamble at offset 0:
wait for the length field, 10-bit length plausibility (discard one byte on
failure), wait for the whole frame, emit (never drop) and continue. -/
def rtcmBranch (recur : List Nat → DemuxOut) (buf : List Nat) : DemuxOut :=
  if buf.length < 3 then stop buf else
  match (buf.getD 1 0 &&& 0x03) <<< 8 ||| buf.getD 2 0 with
  | len =>
    if len = 0 ∨ 1023 < len then addDropped 1 (recur (buf.drop 1)) else
    if buf.length < 1 + 2 + len + 3 then stop buf else
    pushEv (rtcmEvent (buf.take (1 + 2 + len + 3)) len) (recur (buf.drop (1 + 2 + len + 3)))

/-- One iteration of the `_processBuffer` loop, with the continuation
(`continue` with the shrunken buffer) abstracted as `recur`; each `return`
of the source is a `stop`. -/
def demuxStep (recur : List Nat → DemuxOut) (buf : List Nat) : DemuxOut :=
  if buf.take 3 = [0xAA, 0x44, 0x12] then binBranch recur buf
  else
    match buf.findIdx? (fun b => b == 0xD3) with
    | none =>
      match buf.findIdx? (fun b => b == 0x0A) with
      | some lf =>
        pushEv (Ev.line (trimBytes (buf.take (lf + 1))) (lf + 1)) (recur (buf.drop (lf + 1)))
      | none =>
        if 4096 < buf.length then ⟨[], buf.drop (buf.length - 3), 0, buf.length - 3, false⟩
        else stop buf
    | some rIdx =>
      if (match buf.findIdx? (fun b => b == 0x0A) with
          | some lf => decide (lf < rIdx)
          | none => false) = true then
        match buf.findIdx? (fun b => b == 0x0A) with
        | some lf =>
          pushEv (Ev.line (trimBytes (buf.take (lf + 1))) (lf + 1)) (recur (buf.drop (lf + 1)))
        | none => stop buf
      else if 0 < rIdx then
        if (buf.drop rIdx).length < 3 then ⟨[], buf.drop rIdx, rIdx, 0, false⟩
        else addDropped rIdx (recur (buf.drop rIdx))
      else rtcmBranch recur buf

/-- The `_processBuffer` loop with explicit fuel; one unit is spent per
iteration, and every progressing iteration consumes at least one buffer
byte, so `buf.length` fuel always reaches quiescence. -/
def processBufferFuel : Nat → List Nat → DemuxOut
  | 0, buf => stop buf
  | fuel + 1, buf => demuxStep (processBufferFuel fuel) buf

/-- `_onData` on an empty accumulation buffer: append the chunk and run
`_processBuffer` to quiescence. -/
def processBuffer (buf : List Nat) : DemuxOut := processBufferFuel buf.length buf

/-! ### Byte conservation of the demultiplexer -/

/-- The number of buffer bytes a frame event drained: the binary frame's
raw slice, the RTCM frame's total size, the line's raw byte count. -/
def consumed : Ev → Nat
  | .binary _ _ _ raw _ => raw.length
  | .rtcm _ _ _ _ total => total
  | .line _ rawLen => rawLen

/-- Full byte accounting of a demultiplexer outcome: bytes drained into
events, bytes dropped by RTCM resynchronization, bytes removed by the
bounded trim, and bytes still pending. -/
def accounted (o : DemuxOut) : Nat :=
  (o.events.map consumed).sum + o.dropped + o.trimmed + o.rest.length

theorem accounted_stop (buf : List Nat) : accounted (stop buf) = buf.length := by
  simp [accounted, stop]

theorem accounted_stopErr (buf : List Nat) : accounted (stopErr buf) = buf.length := by
  simp [accounted, stopErr]

theorem accounted_pushEv (e : Ev) (o : DemuxOut) :
    accounted (pushEv e o) = consumed e + accounted o := by
  simp [accounted, pushEv]
  omega

theorem accounted_addDropped (n : Nat) (o : DemuxOut) :
    accounted (addDropped n o) = n + accounted o := by
  simp [accounted, addDropped]
  omega

theorem rtcmBranch_conservation (buf : List Nat) (fuel : Nat)
    (ih : ∀ b : List Nat, b.length ≤ fuel → b.length = accounted (processBufferFuel fuel b))
    (hlen : buf.length ≤ fuel + 1) :
    buf.length = accounted (rtcmBranch (processBufferFuel fuel) buf) := by
  simp only [rtcmBranch]
  by_cases hsmall : buf.length < 3
  · rw [if_pos hsmall, accounted_stop]
  rw [if_neg hsmall]
  by_cases hinval : (buf.getD 1 0 &&& 0x03) <<< 8 ||| buf.getD 2 0 = 0 ∨
      1023 < (buf.getD 1 0 &&& 0x03) <<< 8 ||| buf.getD 2 0
  · rw [if_pos hinval, accounted_addDropped]
    have hrec := ih (buf.drop 1) (by simp [List.length_drop]; omega)
    rw [← hrec]
    simp only [List.length_drop]
    omega
  rw [if_neg hinval]
  by_cases hwait : buf.length <
      1 + 2 + ((buf.getD 1 0 &&& 0x03) <<< 8 ||| buf.getD 2 0) + 3
  · rw [if_pos hwait, accounted_stop]
  rw [if_neg hwait, accounted_pushEv]
  have hrec := ih
    (buf.drop (1 + 2 + ((buf.getD 1 0 &&& 0x03) <<< 8 ||| buf.getD 2 0) + 3))
    (by simp [List.length_drop]; omega)
  rw [← hrec]
  simp only [rtcmEvent, consumed, List.length_drop]
  omega

theorem processBufferFuel_conservation :
    ∀ (fuel : Nat) (buf : List Nat), buf.length ≤ fuel →
      buf.length = accounted (processBufferFuel fuel buf) := by
  intro fuel
  induction fuel with
  | zero =>
    intro buf h
    have hb : buf = [] := List.eq_nil_of_length_eq_zero (Nat.le_zero.mp h)
    subst hb
    rfl
  | succ fuel ih =>
    intro buf hlen
    rw [show processBufferFuel (fuel + 1) buf = demuxStep (processBufferFuel fuel) buf from rfl]
    by_cases hpre : buf.take 3 = [0xAA, 0x44, 0x12]
    · have h3 : 3 ≤ buf.length := by
        have := congrArg List.length hpre
        simp [List.length_take] at this
        omega
      simp only [demuxStep, if_pos hpre, binBranch]
      by_cases h28 : buf.length < 28
      · rw [if_pos h28, accounted_stop]
      rw [if_neg h28]
      by_cases hmax : buf.length < max 12 (buf.getD 3 0 + 4)
      · rw [if_pos hmax, accounted_stop]
      rw [if_neg hmax]
      by_cases htot : buf.length < buf.getD 3 0 + readU16LE buf 8 + 4
      · rw [if_pos htot, accounted_stop]
      rw [if_neg htot]
      by_cases herr : buf.getD 3 0 + readU16LE buf 8 < 10
      · rw [if_pos herr, accounted_stopErr]
      rw [if_neg herr, accounted_pushEv]
      have hrec := ih (buf.drop (buf.getD 3 0 + readU16LE buf 8 + 4))
        (by simp [List.length_drop]; omega)
      rw [← hrec]
      simp only [consumed, List.length_take, List.length_drop]
      omega
    · simp only [demuxStep, if_neg hpre]
      cases hD3 : buf.findIdx? (fun b => b == 0xD3) with
      | none =>
        cases hLF : buf.findIdx? (fun b => b == 0x0A) with
        | some lf =>
          dsimp only
          obtain ⟨hlf, -, -⟩ := List.findIdx?_eq_some_iff_getElem.mp hLF
          rw [accounted_pushEv]
          have hrec := ih (buf.drop (lf + 1)) (by simp [List.length_drop]; omega)
          rw [← hrec]
          simp only [consumed, List.length_drop]
          omega
        | none =>
          dsimp only
          by_cases hbig : 4096 < buf.length
          · rw [if_pos hbig]
            simp [accounted, List.length_drop]
            try omega
          · rw [if_neg hbig, accounted_stop]
      | some rIdx =>
        obtain ⟨hri, -, -⟩ := List.findIdx?_eq_some_iff_getElem.mp hD3
        cases hLF : buf.findIdx? (fun b => b == 0x0A) with
        | some lf =>
          dsimp only
          obtain ⟨hlf, -, -⟩ := List.findIdx?_eq_some_iff_getElem.mp hLF
          by_cases hord : lf < rIdx
          · rw [if_pos (by simp [hord])]
            rw [accounted_pushEv]
            have hrec := ih (buf.drop (lf + 1)) (by simp [List.length_drop]; omega)
            rw [← hrec]
            simp only [consumed, List.length_drop]
            omega
          · rw [if_neg (by simp [hord])]
            by_cases hpos : 0 < rIdx
            · rw [if_pos hpos]
              by_cases hshort : (buf.drop rIdx).length < 3
              · rw [if_pos hshort]
                simp [accounted, List.length_drop]
                try omega
              · rw [if_neg hshort, accounted_addDropped]
                have hrec := ih (buf.drop rIdx) (by simp [List.length_drop]; omega)
                rw [← hrec]
                simp only [List.length_drop]
                omega
            · rw [if_neg hpos]
              exact rtcmBranch_conservation buf fuel ih (by omega)
        | none =>
          dsimp only
          rw [if_neg (by simp)]
          by_cases hpos : 0 < rIdx
          · rw [if_pos hpos]
            by_cases hshort : (buf.drop rIdx).length < 3
            · rw [if_pos hshort]
              simp [accounted, List.length_drop]
              try omega
            · rw [if_neg hshort, accounted_addDropped]
              have hrec := ih (buf.drop rIdx) (by simp [List.length_drop]; omega)
              rw [← hrec]
              simp only [List.length_drop]
              omega
          · rw [if_neg hpos]
            exact rtcmBranch_conservation buf fuel ih (by omega)

/-! ### Quiescence: the loop runs until no further frame can be extracted -/

theorem take3_ne_preamble {l : List Nat} (h : l.length < 3) :
    ¬l.take 3 = [0xAA, 0x44, 0x12] := by
  intro hc
  have := congrArg List.length hc
  simp [List.length_take] at this
  omega

theorem findIdx?_drop_none {p : Nat → Bool} {l : List Nat}
    (h : l.findIdx? p = none) (n : Nat) : (l.drop n).findIdx? p = none := by
  rw [List.findIdx?_eq_none_iff] at h ⊢
  intro x hx
  exact h x (List.mem_of_mem_drop hx)

/-- With no binary preamble prefix and the RTCM preamble at offset 0, one
demultiplexer iteration is exactly the RTCM branch. -/
theorem demuxStep_rtcm0 (buf : List Nat)
    (hpre : ¬buf.take 3 = [0xAA, 0x44, 0x12])
    (hD3 : buf.findIdx? (fun b => b == 0xD3) = some 0)
    (r : List Nat → DemuxOut) :
    demuxStep r buf = rtcmBranch r buf := by
  simp only [demuxStep, if_neg hpre]
  rw [hD3]
  dsimp only
  rw [if_neg (by cases hLF : buf.findIdx? (fun b => b == 0x0A) <;> simp)]
  rw [if_neg (show ¬(0 : Nat) < 0 by omega)]

/-- A buffer of fewer than 3 bytes starting with `0xD3` is stuck. -/
theorem demuxStep_d3_short (rest : List Nat) (h0 : 0 < rest.length)
    (h3 : rest.length < 3) (hd : rest.getD 0 0 = 0xD3)
    (r : List Nat → DemuxOut) : demuxStep r rest = stop rest := by
  have hD3 : rest.findIdx? (fun b => b == 0xD3) = some 0 := by
    cases rest with
    | nil => simp at h0
    | cons a t =>
      simp only [List.getD_cons_zero] at hd
      simp [List.findIdx?_cons, hd]
  rw [demuxStep_rtcm0 rest (take3_ne_preamble h3) hD3 r]
  unfold rtcmBranch
  rw [if_pos h3]

/-- A buffer without RTCM preamble, without line feed and within the trim
bound is stuck. -/
theorem demuxStep_quiet (buf : List Nat)
    (hpre : ¬buf.take 3 = [0xAA, 0x44, 0x12])
    (hD3 : buf.findIdx? (fun b => b == 0xD3) = none)
    (hLF : buf.findIdx? (fun b => b == 0x0A) = none)
    (hsm : ¬4096 < buf.length) (r : List Nat → DemuxOut) :
    demuxStep r buf = stop buf := by
  simp only [demuxStep, if_neg hpre]
  rw [hD3]
  dsimp only
  rw [hLF]
  dsimp only
  rw [if_neg hsm]

/-- A D3-free, LF-free buffer of at most 3 bytes (the trim suffix) is
stuck. -/
theorem demuxStep_tiny (rest : List Nat)
    (hD3 : rest.findIdx? (fun b => b == 0xD3) = none)
    (hLF : rest.findIdx? (fun b => b == 0x0A) = none)
    (hlen : rest.length ≤ 3) (r : List Nat → DemuxOut) :
    demuxStep r rest = stop rest := by
  by_cases hpre : rest.take 3 = [0xAA, 0x44, 0x12]
  · simp only [demuxStep, if_pos hpre, binBranch]
    rw [if_pos (by omega : rest.length < 28)]
  · exact demuxStep_quiet rest hpre hD3 hLF (by omega) r

/-- The tail of the stuck-rest induction with a (non-line-shadowed) RTCM
preamble at index `rIdx`: skip-to-preamble, invalid-length skip, frame
emission and the wait states. -/
theorem rIdx_tail_case (buf : List Nat) (fuel : Nat)
    (ih : ∀ b : List Nat, b.length ≤ fuel → ∀ r : List Nat → DemuxOut,
      demuxStep r ((processBufferFuel fuel b).rest) =
        ⟨[], (processBufferFuel fuel b).rest, 0, 0, (processBufferFuel fuel b).err⟩)
    (hlen : buf.length ≤ fuel + 1) (recur : List Nat → DemuxOut)
    (hpre : ¬buf.take 3 = [0xAA, 0x44, 0x12])
    (rIdx : Nat)
    (hD3 : buf.findIdx? (fun b => b == 0xD3) = some rIdx)
    (hri : rIdx < buf.length)
    (hd : buf.getD rIdx 0 = 0xD3)
    (hcond : (match buf.findIdx? (fun b => b == 0x0A) with
        | some lf => decide (lf < rIdx)
        | none => false) = false) :
    demuxStep recur ((demuxStep (processBufferFuel fuel) buf).rest) =
      ⟨[], (demuxStep (processBufferFuel fuel) buf).rest, 0, 0,
        (demuxStep (processBufferFuel fuel) buf).err⟩ := by
  have hstep : demuxStep (processBufferFuel fuel) buf =
      (if 0 < rIdx then
        (if (buf.drop rIdx).length < 3 then ⟨[], buf.drop rIdx, rIdx, 0, false⟩
         else addDropped rIdx (processBufferFuel fuel (buf.drop rIdx)))
      else rtcmBranch (processBufferFuel fuel) buf) := by
    simp only [demuxStep, if_neg hpre]
    rw [hD3]
    dsimp only
    rw [if_neg (by simp [hcond])]
  rw [hstep]
  by_cases hpos : 0 < rIdx
  · rw [if_pos hpos]
    by_cases hshort : (buf.drop rIdx).length < 3
    · rw [if_pos hshort]
      refine demuxStep_d3_short (buf.drop rIdx) (by simp [List.length_drop]; omega)
        hshort ?_ recur
      rw [List.drop_eq_getElem_cons hri, List.getD_cons_zero]
      rw [List.getD_eq_getElem?_getD, List.getElem?_eq_getElem hri] at hd
      simpa using hd
    · rw [if_neg hshort]
      exact ih (buf.drop rIdx) (by simp [List.length_drop]; omega) recur
  · rw [if_neg hpos]
    have h0 : rIdx = 0 := by omega
    subst h0
    simp only [rtcmBranch]
    by_cases hsmall : buf.length < 3
    · rw [if_pos hsmall]
      exact demuxStep_d3_short buf (by omega) hsmall hd recur
    rw [if_neg hsmall]
    by_cases hinval : (buf.getD 1 0 &&& 0x03) <<< 8 ||| buf.getD 2 0 = 0 ∨
        1023 < (buf.getD 1 0 &&& 0x03) <<< 8 ||| buf.getD 2 0
    · rw [if_pos hinval]
      exact ih (buf.drop 1) (by simp [List.length_drop]; omega) recur
    rw [if_neg hinval]
    by_cases hwait : buf.length < 1 + 2 + ((buf.getD 1 0 &&& 0x03) <<< 8 ||| buf.getD 2 0) + 3
    · rw [if_pos hwait]
      have hx : ∀ r : List Nat → DemuxOut, demuxStep r buf = stop buf := by
        intro r
        rw [demuxStep_rtcm0 buf hpre hD3 r]
        simp only [rtcmBranch]
        rw [if_neg hsmall, if_neg hinval, if_pos hwait]
      exact hx recur
    · rw [if_neg hwait]
      exact ih (buf.drop (1 + 2 + ((buf.getD 1 0 &&& 0x03) <<< 8 ||| buf.getD 2 0) + 3))
        (by simp [List.length_drop]; omega) recur

/-- After any amount of processing, the leftover buffer is stuck: one more
iteration extracts nothing, drops nothing, trims nothing and reproduces the
same error condition. -/
theorem demux_rest_stuck :
    ∀ (fuel : Nat) (buf : List Nat), buf.length ≤ fuel →
      ∀ recur : List Nat → DemuxOut,
        demuxStep recur ((processBufferFuel fuel buf).rest) =
          ⟨[], (processBufferFuel fuel buf).rest, 0, 0, (processBufferFuel fuel buf).err⟩ := by
  intro fuel
  induction fuel with
  | zero =>
    intro buf h recur
    have hb : buf = [] := List.eq_nil_of_length_eq_zero (Nat.le_zero.mp h)
    subst hb
    rfl
  | succ fuel ih =>
    intro buf hlen recur
    rw [show processBufferFuel (fuel + 1) buf = demuxStep (processBufferFuel fuel) buf from rfl]
    by_cases hpre : buf.take 3 = [0xAA, 0x44, 0x12]
    · by_cases h28 : buf.length < 28
      · have hx : ∀ r : List Nat → DemuxOut, demuxStep r buf = stop buf := by
          intro r
          simp only [demuxStep, if_pos hpre, binBranch]
          rw [if_pos h28]
        rw [hx]
        exact hx recur
      by_cases hmax : buf.length < max 12 (buf.getD 3 0 + 4)
      · have hx : ∀ r : List Nat → DemuxOut, demuxStep r buf = stop buf := by
          intro r
          simp only [demuxStep, if_pos hpre, binBranch]
          rw [if_neg h28, if_pos hmax]
        rw [hx]
        exact hx recur
      by_cases htot : buf.length < buf.getD 3 0 + readU16LE buf 8 + 4
      · have hx : ∀ r : List Nat → DemuxOut, demuxStep r buf = stop buf := by
          intro r
          simp only [demuxStep, if_pos hpre, binBranch]
          rw [if_neg h28, if_neg hmax, if_pos htot]
        rw [hx]
        exact hx recur
      by_cases herr : buf.getD 3 0 + readU16LE buf 8 < 10
      · have hx : ∀ r : List Nat → DemuxOut, demuxStep r buf = stopErr buf := by
          intro r
          simp only [demuxStep, if_pos hpre, binBranch]
          rw [if_neg h28, if_neg hmax, if_neg htot, if_pos herr]
        rw [hx]
        exact hx recur
      · have hx : demuxStep (processBufferFuel fuel) buf =
            pushEv
              (Ev.binary
                (readU32LE (buf.take (buf.getD 3 0 + readU16LE buf 8 + 4))
                    (buf.getD 3 0 + readU16LE buf 8) ==
                  calcBlockCrc32 ((buf.take (buf.getD 3 0 + readU16LE buf 8 + 4)).take
                    (buf.getD 3 0 + readU16LE buf 8)))
                (readU16LE ((buf.take (buf.getD 3 0 + readU16LE buf 8 + 4)).take
                  (buf.getD 3 0 + readU16LE buf 8)) 4)
                (payloadOf ((buf.take (buf.getD 3 0 + readU16LE buf 8 + 4)).take
                  (buf.getD 3 0 + readU16LE buf 8)))
                (buf.take (buf.getD 3 0 + readU16LE buf 8 + 4))
                (readU32LE (buf.take (buf.getD 3 0 + readU16LE buf 8 + 4))
                  (buf.getD 3 0 + readU16LE buf 8)))
              (processBufferFuel fuel (buf.drop (buf.getD 3 0 + readU16LE buf 8 + 4))) := by
          simp only [demuxStep, if_pos hpre, binBranch]
          rw [if_neg h28, if_neg hmax, if_neg htot, if_neg herr]
        rw [hx]
        exact ih (buf.drop (buf.getD 3 0 + readU16LE buf 8 + 4))
          (by simp [List.length_drop]; omega) recur
    · cases hD3 : buf.findIdx? (fun b => b == 0xD3) with
      | none =>
        cases hLF : buf.findIdx? (fun b => b == 0x0A) with
        | some lf =>
          obtain ⟨hlf, -, -⟩ := List.findIdx?_eq_some_iff_getElem.mp hLF
          have hx : demuxStep (processBufferFuel fuel) buf =
              pushEv (Ev.line (trimBytes (buf.take (lf + 1))) (lf + 1))
                (processBufferFuel fuel (buf.drop (lf + 1))) := by
            simp only [demuxStep, if_neg hpre]
            rw [hD3]
            dsimp only
            rw [hLF]
          rw [hx]
          exact ih (buf.drop (lf + 1)) (by simp [List.length_drop]; omega) recur
        | none =>
          by_cases hbig : 4096 < buf.length
          · have hx : demuxStep (processBufferFuel fuel) buf =
                ⟨[], buf.drop (buf.length - 3), 0, buf.length - 3, false⟩ := by
              simp only [demuxStep, if_neg hpre]
              rw [hD3]
              dsimp only
              rw [hLF]
              dsimp only
              rw [if_pos hbig]
            rw [hx]
            exact demuxStep_tiny _ (findIdx?_drop_none hD3 _) (findIdx?_drop_none hLF _)
              (by simp [List.length_drop]; omega) recur
          · have hx : ∀ r : List Nat → DemuxOut, demuxStep r buf = stop buf :=
              fun r => demuxStep_quiet buf hpre hD3 hLF hbig r
            rw [hx]
            exact hx recur
      | some rIdx =>
        obtain ⟨hri, hpD3, hmin⟩ := List.findIdx?_eq_some_iff_getElem.mp hD3
        cases hLF : buf.findIdx? (fun b => b == 0x0A) with
        | some lf =>
          obtain ⟨hlf, -, -⟩ := List.findIdx?_eq_some_iff_getElem.mp hLF
          by_cases hord : lf < rIdx
          · have hx : demuxStep (processBufferFuel fuel) buf =
                pushEv (Ev.line (trimBytes (buf.take (lf + 1))) (lf + 1))
                  (processBufferFuel fuel (buf.drop (lf + 1))) := by
              simp only [demuxStep, if_neg hpre]
              rw [hD3]
              dsimp only
              rw [if_pos (by rw [hLF]; simpa using hord)]
              try rw [hLF]
            rw [hx]
            exact ih (buf.drop (lf + 1)) (by simp [List.length_drop]; omega) recur
          · refine rIdx_tail_case buf fuel ih hlen recur hpre rIdx hD3 hri ?_
              (by rw [hLF]; simp [hord])
            rw [List.getD_eq_getElem?_getD, List.getElem?_eq_getElem hri]
            simpa using hpD3
        | none =>
          refine rIdx_tail_case buf fuel ih hlen recur hpre rIdx hD3 hri ?_
            (by rw [hLF])
          rw [List.getD_eq_getElem?_getD, List.getElem?_eq_getElem hri]
          simpa using hpD3

/-- Reprocessing the leftover buffer of a completed `_processBuffer` run
extracts nothing: the loop already ran until no further frame could be
extracted. -/
theorem processBuffer_rest_fixed (buf : List Nat) :
    processBuffer ((processBuffer buf).rest) =
      ⟨[], (processBuffer buf).rest, 0, 0, (processBuffer buf).err⟩ := by
  have h := demux_rest_stuck buf.length buf (Nat.le_refl _)
  show processBufferFuel (processBuffer buf).rest.length (processBuffer buf).rest = _
  cases hr : (processBuffer buf).rest with
  | nil =>
    have h0 := h stop
    rw [show (processBufferFuel buf.length buf).rest = (processBuffer buf).rest from rfl,
      hr] at h0
    have herr : (processBuffer buf).err = false := by
      have := congrArg DemuxOut.err h0
      simpa [stop, demuxStep] using this.symm
    rw [herr]
    rfl
  | cons a t =>
    have h1 := h (processBufferFuel t.length)
    rw [show (processBufferFuel buf.length buf).rest = (processBuffer buf).rest from rfl,
      hr] at h1
    exact h1

/-! ### C2 — the three-frame chunk -/

/-- Header (28 bytes, id 42, payload length 4) and payload of a concrete
vendor binary frame. -/
def binBodyEx : List Nat :=
  [0xAA, 0x44, 0x12, 28, 42, 0, 0, 0, 4, 0] ++ List.replicate 18 0 ++ [1, 2, 3, 4]

/-! ### C5 — byte conservation -/

/-- **C5 (amended)** — every byte that enters the buffer is accounted for:
it is drained into an emitted frame or line, dropped by an RTCM
resynchronization (skip-to-preamble or invalid-length skip), removed by
the bounded trim, or still pending in the buffer. -/
theorem demux_byte_conservation (buf : List Nat) :
    buf.length = ((processBuffer buf).events.map consumed).sum +
      (processBuffer buf).dropped + (processBuffer buf).trimmed +
      (processBuffer buf).rest.length := by
  have h := processBufferFuel_conservation buf.length buf (Nat.le_refl _)
  simpa [accounted, processBuffer] using h

/-- **C5 counterexample** — feeding `[0x41, 0xD3]` silently discards the
`0x41` byte through the RTCM skip-to-preamble resynchronization, which is
not the bounded-trim recovery path: no event is emitted, nothing is
trimmed, only `0xD3` stays pending, so the claim's accounting (events +
pending + bounded-trim only) does not add up. -/
theorem demux_resync_drops_byte :
    processBuffer [65, 211] = ⟨[], [211], 1, 0, false⟩ ∧
      ([65, 211] : List Nat).length ≠
        ((processBuffer [65, 211]).events.map consumed).sum +
          (processBuffer [65, 211]).trimmed + (processBuffer [65, 211]).rest.length :=
  ⟨by decide, by decide⟩

/-! ### C3 — CRC sensitivity of binary frames through the demultiplexer -/

theorem getD_append_left {l r : List Nat} {i : Nat} (h : i < l.length) :
    (l ++ r).getD i 0 = l.getD i 0 := by
  simp [List.getD_eq_getElem?_getD, List.getElem?_append_left h]

theorem getD_append_right {l r : List Nat} {i : Nat} (h : l.length ≤ i) :
    (l ++ r).getD i 0 = r.getD (i - l.length) 0 := by
  simp [List.getD_eq_getElem?_getD, List.getElem?_append_right h]

theorem getD_set_ne {l : List Nat} {i j : Nat} (h : i ≠ j) (a : Nat) :
    (l.set i a).getD j 0 = l.getD j 0 := by
  simp [List.getD_eq_getElem?_getD, List.getElem?_set_ne h]

theorem calcBlockCrc32_lt (data : List Nat) : calcBlockCrc32 data < 2 ^ 32 := by
  unfold calcBlockCrc32
  have main : ∀ (l : List Nat) (c : Nat), c < 2 ^ 32 → l.foldl crc32Update c < 2 ^ 32 := by
    intro l
    induction l with
    | nil => intro c hc; simpa using hc
    | cons x xs ih => intro c hc; exact ih _ (crc32Update_lt c x)
  exact main data 0 (by norm_num)

/-- Reading back a little-endian 32-bit trailer appended after `l`. -/
theorem readU32LE_append_toLE4 (l : List Nat) (c : Nat) (hc : c < 2 ^ 32) :
    readU32LE (l ++ toLE4 c) l.length = c := by
  unfold readU32LE toLE4
  rw [getD_append_right (Nat.le_refl _), getD_append_right (by omega),
    getD_append_right (by omega), getD_append_right (by omega)]
  have e0 : l.length - l.length = 0 := by omega
  have e1 : l.length + 1 - l.length = 1 := by omega
  have e2 : l.length + 2 - l.length = 2 := by omega
  have e3 : l.length + 3 - l.length = 3 := by omega
  rw [e0, e1, e2, e3]
  simp only [List.getD_cons_zero, List.getD_cons_succ]
  omega

/-- Symbolic one-frame evaluation: a buffer holding exactly a well-formed
binary frame (body of `h' + p'` bytes and a 4-byte trailer) is consumed in
one iteration, emitting a single binary event with the frame's id, payload
slice and CRC comparison, and leaving the buffer empty. -/
theorem processBuffer_single_frame (h' p' : Nat) (body crc4 : List Nat)
    (hlen : body.length = h' + p') (hc4 : crc4.length = 4)
    (hpre : body.take 3 = [0xAA, 0x44, 0x12])
    (hhl : body.getD 3 0 = h') (hpl : readU16LE body 8 = p')
    (h28 : 28 ≤ h' + p' + 4) :
    processBuffer (body ++ crc4) =
      ⟨[Ev.binary (readU32LE (body ++ crc4) (h' + p') == calcBlockCrc32 body)
          (readU16LE body 4) ((body.drop h').take p') (body ++ crc4)
          (readU32LE (body ++ crc4) (h' + p'))], [], 0, 0, false⟩ := by
  have hblen : (body ++ crc4).length = h' + p' + 4 := by
    simp [List.length_append, hlen, hc4]
  have hpre' : (body ++ crc4).take 3 = [0xAA, 0x44, 0x12] := by
    rw [List.take_append_of_le_length (by omega), hpre]
  have e3 : (body ++ crc4).getD 3 0 = h' := by
    rw [getD_append_left (by omega), hhl]
  have e16 : readU16LE (body ++ crc4) 8 = p' := by
    unfold readU16LE
    unfold readU16LE at hpl
    rw [getD_append_left (by omega), getD_append_left (by omega)]
    exact hpl
  have hfull : (body ++ crc4).take (h' + p' + 4) = body ++ crc4 := by
    rw [← hblen]
    exact List.take_length _
  have hbody : (body ++ crc4).take (h' + p') = body := by
    rw [List.take_append_of_le_length (by omega), ← hlen, List.take_length]
  show processBufferFuel (body ++ crc4).length (body ++ crc4) = _
  rw [hblen]
  rw [show processBufferFuel (h' + p' + 4) (body ++ crc4) =
    demuxStep (processBufferFuel (h' + p' + 3)) (body ++ crc4) from rfl]
  simp only [demuxStep, binBranch]
  rw [if_pos hpre', e3, e16, hblen]
  rw [if_neg (by omega), if_neg (by omega), if_neg (by omega), if_neg (by omega)]
  rw [hfull, hbody]
  have hdrop : (body ++ crc4).drop (h' + p' + 4) = [] := by
    rw [← hblen]
    exact List.drop_length _
  rw [hdrop]
  have hnil : ∀ f : Nat, processBufferFuel f [] = stop [] := by
    intro f
    cases f with
    | zero => rfl
    | succ f => rfl
  rw [hnil]
  have hpay : payloadOf body = (body.drop h').take p' := by
    unfold payloadOf
    rw [hhl, hpl, if_pos (by omega)]
  rw [hpay]
  rfl

/-- **C3** — CRC sensitivity of the binary path.  For every well-formed
vendor binary frame (body of `h + p` bytes: `h ≥ 10` header bytes holding
preamble, header length and the little-endian id/payload-length fields, and
`p ≥ 1` payload bytes; total frame at least the 28-byte minimum the
demultiplexer waits for) whose trailing 4 bytes are the little-endian
`calcBlockCrc32` of the body:

* the demultiplexer emits it as a single binary event with `crcOk = true`;
* changing any single payload byte (position `k`, `h ≤ k < h + p`) to a
  different byte value `d` still emits a single binary event with the
  original message id and the frame's payload bytes (the original payload
  with position `k - h` replaced by `d`), but with `crcOk = false`. -/
theorem binary_crc_sensitivity
    (h p : Nat) (body : List Nat)
    (hh : 10 ≤ h)
    (hlen : body.length = h + p)
    (hpre : body.take 3 = [0xAA, 0x44, 0x12])
    (hhl : body.getD 3 0 = h)
    (hpl : readU16LE body 8 = p)
    (h28 : 28 ≤ h + p + 4)
    (hbytes : ∀ b ∈ body, b < 256)
    (k d : Nat) (hk1 : h ≤ k) (hk2 : k < h + p)
    (hd : d < 256) (hne : d ≠ body.getD k 0) :
    processBuffer (body ++ toLE4 (calcBlockCrc32 body)) =
      ⟨[Ev.binary true (readU16LE body 4) ((body.drop h).take p)
        (body ++ toLE4 (calcBlockCrc32 body)) (calcBlockCrc32 body)], [], 0, 0, false⟩ ∧
    processBuffer (body.set k d ++ toLE4 (calcBlockCrc32 body)) =
      ⟨[Ev.binary false (readU16LE body 4) (((body.drop h).take p).set (k - h) d)
        (body.set k d ++ toLE4 (calcBlockCrc32 body)) (calcBlockCrc32 body)], [], 0, 0, false⟩ := by
  have hc := calcBlockCrc32_lt body
  have hc4len : (toLE4 (calcBlockCrc32 body)).length = 4 := by simp [toLE4]
  constructor
  · have hrt : readU32LE (body ++ toLE4 (calcBlockCrc32 body)) (h + p) = calcBlockCrc32 body := by
      have := readU32LE_append_toLE4 body (calcBlockCrc32 body) hc
      rwa [hlen] at this
    have h1 := processBuffer_single_frame h p body (toLE4 (calcBlockCrc32 body))
      hlen hc4len hpre hhl hpl h28
    rw [hrt] at h1
    rw [show (calcBlockCrc32 body == calcBlockCrc32 body) = true from beq_self_eq_true _] at h1
    exact h1
  · have hlen2 : (body.set k d).length = h + p := by simp [List.length_set, hlen]
    have hpre2 : (body.set k d).take 3 = [0xAA, 0x44, 0x12] := by
      rw [List.set_take, List.set_eq_of_length_le, hpre]
      simp [List.length_take]
      omega
    have hhl2 : (body.set k d).getD 3 0 = h := by
      rw [getD_set_ne (by omega)]
      exact hhl
    have hpl2 : readU16LE (body.set k d) 8 = p := by
      unfold readU16LE
      unfold readU16LE at hpl
      rw [getD_set_ne (by omega), getD_set_ne (by omega)]
      exact hpl
    have hid2 : readU16LE (body.set k d) 4 = readU16LE body 4 := by
      unfold readU16LE
      rw [getD_set_ne (by omega), getD_set_ne (by omega)]
    have hrt2 : readU32LE (body.set k d ++ toLE4 (calcBlockCrc32 body)) (h + p) =
        calcBlockCrc32 body := by
      have := readU32LE_append_toLE4 (body.set k d) (calcBlockCrc32 body) hc
      rwa [hlen2] at this
    have hcrcne : (calcBlockCrc32 body == calcBlockCrc32 (body.set k d)) = false := by
      rw [beq_eq_false_iff_ne]
      exact fun hx => calcBlockCrc32_set_ne body k d (by omega) hbytes hd hne hx.symm
    have hpay2 : ((body.set k d).drop h).take p = ((body.drop h).take p).set (k - h) d := by
      rw [List.drop_set, if_neg (by omega), List.set_take]
    have h2 := processBuffer_single_frame h p (body.set k d) (toLE4 (calcBlockCrc32 body))
      hlen2 hc4len hpre2 hhl2 hpl2 h28
    rw [hrt2, hcrcne, hid2, hpay2] at h2
    exact h2

/-- **C3 witness** — the sensitivity statement applied to the concrete
28-byte-header/4-byte-payload frame `binBodyEx`, flipping payload byte 0
(absolute offset 28) from `1` to `9`. -/
theorem binary_crc_sensitivity_witness :
    processBuffer (binBodyEx ++ toLE4 (calcBlockCrc32 binBodyEx)) =
      ⟨[Ev.binary true (readU16LE binBodyEx 4) ((binBodyEx.drop 28).take 4)
        (binBodyEx ++ toLE4 (calcBlockCrc32 binBodyEx)) (calcBlockCrc32 binBodyEx)],
        [], 0, 0, false⟩ ∧
    processBuffer (binBodyEx.set 28 9 ++ toLE4 (calcBlockCrc32 binBodyEx)) =
      ⟨[Ev.binary false (readU16LE binBodyEx 4) (((binBodyEx.drop 28).take 4).set (28 - 28) 9)
        (binBodyEx.set 28 9 ++ toLE4 (calcBlockCrc32 binBodyEx)) (calcBlockCrc32 binBodyEx)],
        [], 0, 0, false⟩ :=
  binary_crc_sensitivity 28 4 binBodyEx (by decide) (by decide) (by decide)
    (by decide) (by decide) (by decide) (by decide) 28 9 (by decide) (by decide)
    (by decide) (by decide)

/-! ### C2 — symbolic three-frame chunks through the demultiplexer

The three step lemmas below evaluate one `_processBuffer` iteration on a
buffer beginning with (1) a complete vendor binary frame, (2) a complete
RTCM frame, (3) a newline-terminated ASCII line, each followed by an
arbitrary remainder handed to the loop continuation. -/

theorem processBufferFuel_nil (f : Nat) : processBufferFuel f [] = stop [] := by
  cases f with
  | zero => rfl
  | succ f => rfl

theorem getD_take {l : List Nat} {n j : Nat} (h : j < n) :
    (l.take n).getD j 0 = l.getD j 0 := by
  simp [List.getD_eq_getElem?_getD, List.getElem?_take, h]

theorem getD_mem {l : List Nat} {j : Nat} (h : j < l.length) : l.getD j 0 ∈ l := by
  rw [List.getD_eq_getElem?_getD, List.getElem?_eq_getElem h]
  simp

/-- One iteration on a buffer beginning with a complete vendor binary
frame (body of `h' + p'` bytes, 4 trailer bytes) consumes exactly the
frame, emits its binary event and continues on the remainder — provided
the whole buffer has reached the 28-byte threshold. -/
theorem demuxStep_binFrame (recur : List Nat → DemuxOut) (h' p' : Nat)
    (body crc4 rest : List Nat)
    (hlen : body.length = h' + p') (hc4 : crc4.length = 4)
    (hpre : body.take 3 = [0xAA, 0x44, 0x12])
    (hhl : body.getD 3 0 = h') (hpl : readU16LE body 8 = p')
    (h10 : 10 ≤ h' + p')
    (h28 : 28 ≤ h' + p' + 4 + rest.length) :
    demuxStep recur ((body ++ crc4) ++ rest) =
      pushEv (Ev.binary (readU32LE (body ++ crc4) (h' + p') == calcBlockCrc32 body)
          (readU16LE body 4) ((body.drop h').take p') (body ++ crc4)
          (readU32LE (body ++ crc4) (h' + p')))
        (recur rest) := by
  have hbc : (body ++ crc4).length = h' + p' + 4 := by simp [hlen, hc4]
  have hblen : ((body ++ crc4) ++ rest).length = h' + p' + 4 + rest.length := by
    simp [hlen, hc4]
    omega
  have hpre' : ((body ++ crc4) ++ rest).take 3 = [0xAA, 0x44, 0x12] := by
    rw [List.take_append_of_le_length (by omega),
      List.take_append_of_le_length (by omega), hpre]
  have e3 : ((body ++ crc4) ++ rest).getD 3 0 = h' := by
    rw [getD_append_left (by omega), getD_append_left (by omega), hhl]
  have e16 : readU16LE ((body ++ crc4) ++ rest) 8 = p' := by
    unfold readU16LE
    unfold readU16LE at hpl
    rw [getD_append_left (by omega), getD_append_left (by omega),
      getD_append_left (by omega), getD_append_left (by omega)]
    exact hpl
  have hfull : ((body ++ crc4) ++ rest).take (h' + p' + 4) = body ++ crc4 := by
    rw [List.take_append_of_le_length (by omega), ← hbc, List.take_length]
  have hbody : (body ++ crc4).take (h' + p') = body := by
    rw [List.take_append_of_le_length (by omega), ← hlen, List.take_length]
  have hdrop : ((body ++ crc4) ++ rest).drop (h' + p' + 4) = rest := by
    rw [← hbc]
    exact List.drop_left _ _
  simp only [demuxStep, binBranch]
  rw [if_pos hpre', e3, e16, hblen]
  rw [if_neg (by omega), if_neg (by omega), if_neg (by omega), if_neg (by omega)]
  rw [hfull, hbody, hdrop]
  have hpay : payloadOf body = (body.drop h').take p' := by
    unfold payloadOf
    rw [hhl, hpl, if_pos (by omega)]
  rw [hpay]

/-- One iteration on a buffer beginning with a complete RTCM frame
(preamble byte, two length bytes encoding `rlen`, `rlen` payload bytes and
3 CRC bytes) consumes exactly the frame, emits its RTCM event and
continues on the remainder. -/
theorem demuxStep_rtcmFrame (recur : List Nat → DemuxOut) (b1 b2 rlen : Nat)
    (rbody rest : List Nat)
    (hrlen : (b1 &&& 0x03) <<< 8 ||| b2 = rlen)
    (hr1 : 0 < rlen) (hr2 : rlen ≤ 1023)
    (hrb : rbody.length = rlen + 3) :
    demuxStep recur ((0xD3 :: b1 :: b2 :: rbody) ++ rest) =
      pushEv (rtcmEvent (0xD3 :: b1 :: b2 :: rbody) rlen) (recur rest) := by
  have hfl : (0xD3 :: b1 :: b2 :: rbody).length = 1 + 2 + rlen + 3 := by
    simp [hrb]
    omega
  have hpre : ¬((0xD3 :: b1 :: b2 :: rbody) ++ rest).take 3 = [0xAA, 0x44, 0x12] := by
    intro hc
    rw [List.take_append_of_le_length (by omega)] at hc
    rw [show (0xD3 :: b1 :: b2 :: rbody).take 3 = [0xD3, b1, b2] from rfl] at hc
    simp at hc
  have hD3 : ((0xD3 :: b1 :: b2 :: rbody) ++ rest).findIdx? (fun b => b == 0xD3) =
      some 0 := by
    simp [List.findIdx?_cons]
  rw [demuxStep_rtcm0 _ hpre hD3 recur]
  simp only [rtcmBranch]
  have hblen : ((0xD3 :: b1 :: b2 :: rbody) ++ rest).length =
      1 + 2 + rlen + 3 + rest.length := by
    simp [hrb]
    omega
  have g1 : ((0xD3 :: b1 :: b2 :: rbody) ++ rest).getD 1 0 = b1 := rfl
  have g2 : ((0xD3 :: b1 :: b2 :: rbody) ++ rest).getD 2 0 = b2 := rfl
  have hfull : ((0xD3 :: b1 :: b2 :: rbody) ++ rest).take (1 + 2 + rlen + 3) =
      0xD3 :: b1 :: b2 :: rbody := by
    rw [List.take_append_of_le_length (by omega), ← hfl, List.take_length]
  have hdrop : ((0xD3 :: b1 :: b2 :: rbody) ++ rest).drop (1 + 2 + rlen + 3) = rest := by
    rw [← hfl]
    exact List.drop_left _ _
  rw [hblen, g1, g2, hrlen]
  rw [if_neg (by omega), if_neg (by omega), if_neg (by omega)]
  rw [hfull, hdrop]

theorem findIdx?_append_lf (line : List Nat) (hNoLF : ∀ b ∈ line, ¬b = 10) :
    (line ++ [10]).findIdx? (fun b => b == 0x0A) = some line.length := by
  induction line with
  | nil => simp [List.findIdx?_cons]
  | cons a t ih =>
    have ha : (a == 10) = false := by
      simp only [beq_eq_false_iff_ne]
      exact hNoLF a (List.mem_cons_self a t)
    simp [List.findIdx?_cons, ha,
      ih (fun b hb => hNoLF b (List.mem_cons_of_mem a hb))]

/-- One iteration on a buffer holding exactly a newline-terminated ASCII
line (bytes below 128, no interior line feed) emits the trimmed line and
leaves the loop on an empty buffer. -/
theorem demuxStep_asciiLine (recur : List Nat → DemuxOut) (line : List Nat)
    (hNoLF : ∀ b ∈ line, ¬b = 10) (hAscii : ∀ b ∈ line, b < 128) :
    demuxStep recur (line ++ [10]) =
      pushEv (Ev.line (trimBytes (line ++ [10])) (line.length + 1)) (recur []) := by
  have hpre : ¬(line ++ [10]).take 3 = [0xAA, 0x44, 0x12] := by
    intro hc
    have h0 : (0xAA : Nat) ∈ (line ++ [10]).take 3 := by
      rw [hc]
      simp
    have h0' : (0xAA : Nat) ∈ line ++ [10] := List.mem_of_mem_take h0
    rcases List.mem_append.1 h0' with h | h
    · exact absurd (hAscii _ h) (by decide)
    · simp at h
  have hD3 : (line ++ [10]).findIdx? (fun b => b == 0xD3) = none := by
    rw [List.findIdx?_eq_none_iff]
    intro x hx
    rcases List.mem_append.1 hx with h | h
    · have := hAscii x h
      simp only [beq_eq_false_iff_ne]
      omega
    · simp at h
      subst h
      decide
  have hLF : (line ++ [10]).findIdx? (fun b => b == 0x0A) = some line.length :=
    findIdx?_append_lf line hNoLF
  have hlen : (line ++ [10]).length = line.length + 1 := by simp
  have hfull : (line ++ [10]).take (line.length + 1) = line ++ [10] := by
    rw [← hlen, List.take_length]
  have hdrop : (line ++ [10]).drop (line.length + 1) = [] := by
    rw [← hlen, List.drop_length]
  simp only [demuxStep, if_neg hpre]
  rw [hD3]
  dsimp only
  rw [hLF]
  dsimp only
  rw [hfull, hdrop]

/-- A chunk concatenating a complete CRC-valid binary frame (10-byte
header, 1-byte payload), a complete CRC-valid RTCM frame (1-byte payload)
and a newline-terminated ASCII line — 24 bytes in total. -/
def smallChunkEx : List Nat :=
  ([0xAA, 0x44, 0x12, 10, 42, 0, 0, 0, 1, 0, 7] ++
      toLE4 (calcBlockCrc32 [0xAA, 0x44, 0x12, 10, 42, 0, 0, 0, 1, 0, 7])) ++
    (([0xD3, 0x00, 0x01, 0x41] ++ toBE3 (crc24q [0xD3, 0x00, 0x01, 0x41])) ++ [36, 10])

/-- **C2 counterexample** — a single chunk that is the concatenation of
one complete vendor binary frame, one complete RTCM frame and one
newline-terminated ASCII line, yet totals only 24 bytes: because the
binary branch waits for 28 buffered bytes before doing anything, feeding
it emits zero events (not three) and leaves the whole chunk pending (not
an empty buffer). -/
theorem feed_small_chunk_stalls :
    processBuffer smallChunkEx = ⟨[], smallChunkEx, 0, 0, false⟩ ∧
      (processBuffer smallChunkEx).events.length ≠ 3 ∧
      (processBuffer smallChunkEx).rest ≠ [] :=
  ⟨by set_option maxRecDepth 100000 in decide,
    by set_option maxRecDepth 100000 in decide,
    by set_option maxRecDepth 100000 in decide⟩

/-- **C2 (amended)** — for every single chunk that concatenates one
complete vendor binary frame (consistent header fields, any 4-byte
trailer), one complete RTCM frame and one newline-terminated ASCII line,
*provided the chunk has reached the 28-byte threshold of the binary-branch
wait*, one feed emits exactly three events — the binary frame (with its
CRC comparison), the RTCM frame, then the text line, in that order — and
leaves the accumulation buffer empty; and in general each feed call
extracts frames repeatedly until no further frame can be extracted
(reprocessing the leftover buffer yields nothing). -/
theorem feed_three_frames
    (h' p' : Nat) (body crc4 : List Nat) (b1 b2 rlen : Nat) (rbody line : List Nat)
    (hlen : body.length = h' + p') (hc4 : crc4.length = 4)
    (hpre : body.take 3 = [0xAA, 0x44, 0x12])
    (hhl : body.getD 3 0 = h') (hpl : readU16LE body 8 = p')
    (h10 : 10 ≤ h' + p')
    (h28 : 28 ≤ h' + p' + 4 + (rlen + 6) + (line.length + 1))
    (hrlen : (b1 &&& 0x03) <<< 8 ||| b2 = rlen) (hr1 : 0 < rlen) (hr2 : rlen ≤ 1023)
    (hrb : rbody.length = rlen + 3)
    (hNoLF : ∀ b ∈ line, ¬b = 10) (hAscii : ∀ b ∈ line, b < 128) :
    processBuffer ((body ++ crc4) ++
        ((0xD3 :: b1 :: b2 :: rbody) ++ (line ++ [10]))) =
      ⟨[Ev.binary (readU32LE (body ++ crc4) (h' + p') == calcBlockCrc32 body)
          (readU16LE body 4) ((body.drop h').take p') (body ++ crc4)
          (readU32LE (body ++ crc4) (h' + p')),
        rtcmEvent (0xD3 :: b1 :: b2 :: rbody) rlen,
        Ev.line (trimBytes (line ++ [10])) (line.length + 1)], [], 0, 0, false⟩ ∧
    (∀ buf : List Nat, processBuffer ((processBuffer buf).rest) =
      ⟨[], (processBuffer buf).rest, 0, 0, (processBuffer buf).err⟩) := by
  refine ⟨?_, processBuffer_rest_fixed⟩
  have hclen : ((body ++ crc4) ++ ((0xD3 :: b1 :: b2 :: rbody) ++ (line ++ [10]))).length =
      h' + p' + 4 + (rlen + 6) + (line.length + 1) := by
    simp [hlen, hc4, hrb]
    omega
  obtain ⟨m, hm⟩ : ∃ m,
      ((body ++ crc4) ++ ((0xD3 :: b1 :: b2 :: rbody) ++ (line ++ [10]))).length = m + 3 :=
    ⟨((body ++ crc4) ++ ((0xD3 :: b1 :: b2 :: rbody) ++ (line ++ [10]))).length - 3,
      by omega⟩
  unfold processBuffer
  rw [hm]
  rw [show processBufferFuel (m + 3)
        ((body ++ crc4) ++ ((0xD3 :: b1 :: b2 :: rbody) ++ (line ++ [10]))) =
      demuxStep (processBufferFuel (m + 2))
        ((body ++ crc4) ++ ((0xD3 :: b1 :: b2 :: rbody) ++ (line ++ [10]))) from rfl]
  rw [demuxStep_binFrame (processBufferFuel (m + 2)) h' p' body crc4
    ((0xD3 :: b1 :: b2 :: rbody) ++ (line ++ [10])) hlen hc4 hpre hhl hpl h10
    (by simp [hrb]; omega)]
  rw [show processBufferFuel (m + 2) ((0xD3 :: b1 :: b2 :: rbody) ++ (line ++ [10])) =
      demuxStep (processBufferFuel (m + 1))
        ((0xD3 :: b1 :: b2 :: rbody) ++ (line ++ [10])) from rfl]
  rw [demuxStep_rtcmFrame (processBufferFuel (m + 1)) b1 b2 rlen rbody (line ++ [10])
    hrlen hr1 hr2 hrb]
  rw [show processBufferFuel (m + 1) (line ++ [10]) =
      demuxStep (processBufferFuel m) (line ++ [10]) from rfl]
  rw [demuxStep_asciiLine (processBufferFuel m) line hNoLF hAscii]
  rw [processBufferFuel_nil]
  rfl

/-- **C2 witness** — the amended statement applied to a concrete 48-byte
chunk: the 36-byte binary frame over `binBodyEx`, a 10-byte RTCM frame
and the line `"$GPGGA,1\n"`. -/
theorem feed_three_frames_witness :
    processBuffer ((binBodyEx ++ toLE4 (calcBlockCrc32 binBodyEx)) ++
        ((0xD3 :: 0x00 :: 0x04 :: ([0x3F, 0xD0, 0x00, 0x00] ++
            toBE3 (crc24q [0xD3, 0x00, 0x04, 0x3F, 0xD0, 0x00, 0x00]))) ++
          ([36, 71, 80, 71, 71, 65, 44, 49] ++ [10]))) =
      ⟨[Ev.binary
          (readU32LE (binBodyEx ++ toLE4 (calcBlockCrc32 binBodyEx)) (28 + 4) ==
            calcBlockCrc32 binBodyEx)
          (readU16LE binBodyEx 4) ((binBodyEx.drop 28).take 4)
          (binBodyEx ++ toLE4 (calcBlockCrc32 binBodyEx))
          (readU32LE (binBodyEx ++ toLE4 (calcBlockCrc32 binBodyEx)) (28 + 4)),
        rtcmEvent (0xD3 :: 0x00 :: 0x04 :: ([0x3F, 0xD0, 0x00, 0x00] ++
          toBE3 (crc24q [0xD3, 0x00, 0x04, 0x3F, 0xD0, 0x00, 0x00]))) 4,
        Ev.line (trimBytes (([36, 71, 80, 71, 71, 65, 44, 49] : List Nat) ++ [10]))
          (([36, 71, 80, 71, 71, 65, 44, 49] : List Nat).length + 1)],
        [], 0, 0, false⟩ :=
  (feed_three_frames 28 4 binBodyEx (toLE4 (calcBlockCrc32 binBodyEx)) 0x00 0x04 4
    ([0x3F, 0xD0, 0x00, 0x00] ++ toBE3 (crc24q [0xD3, 0x00, 0x04, 0x3F, 0xD0, 0x00, 0x00]))
    [36, 71, 80, 71, 71, 65, 44, 49]
    (by decide) (by decide) (by decide) (by decide) (by decide) (by decide) (by decide)
    (by decide) (by decide) (by decide) (by decide) (by decide) (by decide)).1

/-! ### C6 — the per-chunk statistics scanner on split RTCM messages

`_extractRtcmIds` counts one message when it finds a preamble byte, a
plausible length and the full payload inside the chunk; the lemmas below
evaluate the loop symbolically on a frame-initial buffer whose later bytes
never equal `0xD3` (a byte equal to the preamble inside payload or CRC
would start a spurious scan). -/

/-- One `this._rtcmTypes.set / this._stats.rtcmMessages++` update. -/
def countMsg (m : Nat) (st : RtcmStats) : RtcmStats :=
  { st with
      rtcmTypes := mapSet st.rtcmTypes m ((mapGet st.rtcmTypes m).getD 0 + 1),
      rtcmMessages := st.rtcmMessages + 1 }

/-- The scanner loop never changes the statistics while every byte from
the current index on differs from the preamble. -/
theorem extractLoop_clean (fuel : Nat) (buf : List Nat) : ∀ (i : Nat) (st : RtcmStats),
    (∀ j, i ≤ j → j < buf.length → ¬buf.getD j 0 = 0xD3) →
    extractLoop fuel buf i st = st := by
  induction fuel with
  | zero => intro i st _; rfl
  | succ fuel ih =>
    intro i st h
    simp only [extractLoop]
    by_cases hlt : i < buf.length - 3
    · rw [if_pos hlt, if_neg (h i (Nat.le_refl i) (by omega))]
      exact ih (i + 1) st (fun j hj hjl => h j (by omega) hjl)
    · rw [if_neg hlt]

/-- Exactly one unfolding of the scanner loop. -/
theorem extractLoop_succ (fuel : Nat) (buf : List Nat) (i : Nat) (st : RtcmStats) :
    extractLoop (fuel + 1) buf i st =
      if i < buf.length - 3 then
        if buf.getD i 0 = 0xD3 then
          if 0 < ((buf.getD (i + 1) 0 &&& 0x03) <<< 8 ||| buf.getD (i + 2) 0) ∧
              ((buf.getD (i + 1) 0 &&& 0x03) <<< 8 ||| buf.getD (i + 2) 0) < 1024 ∧
              i + 3 + ((buf.getD (i + 1) 0 &&& 0x03) <<< 8 ||| buf.getD (i + 2) 0) ≤
                buf.length then
            extractLoop fuel buf
              (i + 3 + ((buf.getD (i + 1) 0 &&& 0x03) <<< 8 ||| buf.getD (i + 2) 0) + 3)
              (if 0 < (buf.getD (i + 3) 0 <<< 4 ||| (buf.getD (i + 4) 0 >>> 4) &&& 0x0F) ∧
                  (buf.getD (i + 3) 0 <<< 4 ||| (buf.getD (i + 4) 0 >>> 4) &&& 0x0F) <
                    4096 then
                countMsg (buf.getD (i + 3) 0 <<< 4 ||| (buf.getD (i + 4) 0 >>> 4) &&& 0x0F)
                  st
              else st)
          else extractLoop fuel buf (i + 1) st
        else extractLoop fuel buf (i + 1) st
      else st := rfl

/-- A chunk containing no preamble byte at all leaves the statistics
untouched. -/
theorem extractRtcmIds_clean (buf : List Nat) (h : ∀ b ∈ buf, ¬b = 0xD3)
    (st : RtcmStats) : extractRtcmIds buf st = st :=
  extractLoop_clean buf.length buf 0 st (fun _ _ hjl => h _ (getD_mem hjl))

/-- Symbolic evaluation of the scanner on a buffer that starts with an
RTCM preamble and length field and whose remaining bytes never equal the
preamble: the message is counted (when its id passes the range check)
exactly when the full payload is inside the buffer, and nothing else is
counted. -/
theorem extractRtcmIds_head_frame (b1 b2 plen : Nat) (t : List Nat) (st : RtcmStats)
    (hplen : (b1 &&& 0x03) <<< 8 ||| b2 = plen) (h1 : 0 < plen) (h2 : plen < 1024)
    (hb1 : ¬b1 = 0xD3) (hb2 : ¬b2 = 0xD3) (hclean : ∀ b ∈ t, ¬b = 0xD3) :
    extractRtcmIds (0xD3 :: b1 :: b2 :: t) st =
      if 3 + plen ≤ 3 + t.length then
        (if 0 < t.getD 0 0 <<< 4 ||| (t.getD 1 0 >>> 4) &&& 0x0F ∧
            t.getD 0 0 <<< 4 ||| (t.getD 1 0 >>> 4) &&& 0x0F < 4096 then
          countMsg (t.getD 0 0 <<< 4 ||| (t.getD 1 0 >>> 4) &&& 0x0F) st
        else st)
      else st := by
  have hL : (0xD3 :: b1 :: b2 :: t).length = t.length + 3 := by simp
  have htail : ∀ j, 1 ≤ j → j < (0xD3 :: b1 :: b2 :: t).length →
      ¬(0xD3 :: b1 :: b2 :: t).getD j 0 = 0xD3 := by
    intro j hj hjl
    match j, hj with
    | 1, _ => exact hb1
    | 2, _ => exact hb2
    | (j + 3), _ =>
      show ¬t.getD j 0 = 0xD3
      exact hclean _ (getD_mem (by omega))
  by_cases hc : plen ≤ t.length
  · rw [if_pos (by omega)]
    show extractLoop (0xD3 :: b1 :: b2 :: t).length (0xD3 :: b1 :: b2 :: t) 0 st = _
    rw [hL, show t.length + 3 = t.length + 2 + 1 from rfl]
    rw [extractLoop_succ]
    rw [if_pos (show 0 < (0xD3 :: b1 :: b2 :: t).length - 3 by rw [hL]; omega)]
    rw [if_pos (show (0xD3 :: b1 :: b2 :: t).getD 0 0 = 0xD3 from rfl)]
    have g1 : (0xD3 :: b1 :: b2 :: t).getD (0 + 1) 0 = b1 := rfl
    have g2 : (0xD3 :: b1 :: b2 :: t).getD (0 + 2) 0 = b2 := rfl
    have g3 : (0xD3 :: b1 :: b2 :: t).getD (0 + 3) 0 = t.getD 0 0 := rfl
    have g4 : (0xD3 :: b1 :: b2 :: t).getD (0 + 4) 0 = t.getD 1 0 := rfl
    rw [g1, g2, hplen, g3, g4]
    rw [if_pos (⟨h1, h2, by rw [hL]; omega⟩ :
      0 < plen ∧ plen < 1024 ∧ 0 + 3 + plen ≤ (0xD3 :: b1 :: b2 :: t).length)]
    rw [extractLoop_clean (t.length + 2) (0xD3 :: b1 :: b2 :: t) (0 + 3 + plen + 3) _
      (fun j hj hjl => htail j (by omega) hjl)]
  · rw [if_neg (by omega)]
    cases t with
    | nil => rfl
    | cons a t' =>
      have hc' : t'.length + 1 < plen := by
        simp at hc
        omega
      have hL' : (0xD3 :: b1 :: b2 :: a :: t').length = t'.length + 4 := by simp
      show extractLoop (0xD3 :: b1 :: b2 :: a :: t').length
        (0xD3 :: b1 :: b2 :: a :: t') 0 st = st
      rw [hL', show t'.length + 4 = t'.length + 3 + 1 from rfl]
      rw [extractLoop_succ]
      rw [if_pos (show 0 < (0xD3 :: b1 :: b2 :: a :: t').length - 3 by rw [hL']; omega)]
      rw [if_pos (show (0xD3 :: b1 :: b2 :: a :: t').getD 0 0 = 0xD3 from rfl)]
      have g1 : (0xD3 :: b1 :: b2 :: a :: t').getD (0 + 1) 0 = b1 := rfl
      have g2 : (0xD3 :: b1 :: b2 :: a :: t').getD (0 + 2) 0 = b2 := rfl
      rw [g1, g2, hplen]
      rw [if_neg (show ¬(0 < plen ∧ plen < 1024 ∧
          0 + 3 + plen ≤ (0xD3 :: b1 :: b2 :: a :: t').length) by rw [hL']; omega)]
      exact extractLoop_clean (t'.length + 3) (0xD3 :: b1 :: b2 :: a :: t') (0 + 1) st
        (fun j hj hjl => htail j (by omega) hjl)

/-- **C6 (amended)** — the statistics scanner keeps no state across chunks
(each chunk is scanned from index 0 independently).  For every RTCM
message — preamble `0xD3`, length field `plen ≥ 2`, `plen` payload bytes
and 3 CRC bytes, whose bytes after the preamble never equal `0xD3` (a
preamble-valued byte inside payload or CRC can start a spurious count) and
whose 12-bit id is nonzero — and every split position `s` strictly inside
the frame: the first fragment counts the message exactly once if it
already contains preamble, length and the full payload (the 3 CRC bytes
are not required) and zero times otherwise; the second fragment never
counts anything (from any starting statistics); the unsplit frame is
counted exactly once; and every chunk is forwarded byte-for-byte
regardless of the scan.  A message split inside header or payload is
therefore never counted — neither pending at the first chunk nor after the
remainder arrives. -/
theorem extractRtcmIds_split_behaviour
    (b1 b2 plen : Nat) (payload crc3 : List Nat) (s : Nat)
    (hplen : (b1 &&& 0x03) <<< 8 ||| b2 = plen)
    (h2 : plen < 1024) (hp2 : 2 ≤ plen)
    (hpl : payload.length = plen) (hc3 : crc3.length = 3)
    (hbytes : ∀ b ∈ payload, b < 256)
    (hid1 : 0 < payload.getD 0 0 <<< 4 ||| (payload.getD 1 0 >>> 4) &&& 0x0F)
    (hclean : ∀ b ∈ b1 :: b2 :: (payload ++ crc3), ¬b = 0xD3)
    (hs1 : 0 < s) (hs2 : s < (0xD3 :: b1 :: b2 :: (payload ++ crc3)).length) :
    ((extractRtcmIds ((0xD3 :: b1 :: b2 :: (payload ++ crc3)).take s)
        initStats).rtcmMessages = if 3 + plen ≤ s then 1 else 0) ∧
    ((extractRtcmIds ((0xD3 :: b1 :: b2 :: (payload ++ crc3)).take s)
        initStats).rtcmTypes =
      if 3 + plen ≤ s then
        [(payload.getD 0 0 <<< 4 ||| (payload.getD 1 0 >>> 4) &&& 0x0F, 1)]
      else []) ∧
    (∀ st, extractRtcmIds ((0xD3 :: b1 :: b2 :: (payload ++ crc3)).drop s) st = st) ∧
    (extractRtcmIds (0xD3 :: b1 :: b2 :: (payload ++ crc3)) initStats).rtcmMessages = 1 ∧
    (extractRtcmIds (0xD3 :: b1 :: b2 :: (payload ++ crc3)) initStats).rtcmTypes =
      [(payload.getD 0 0 <<< 4 ||| (payload.getD 1 0 >>> 4) &&& 0x0F, 1)] ∧
    (∀ st buf, (onRtcmData st buf).2 = buf) := by
  have hb1 : ¬b1 = 0xD3 := hclean b1 (List.mem_cons_self _ _)
  have hb2 : ¬b2 = 0xD3 := hclean b2 (List.mem_cons_of_mem _ (List.mem_cons_self _ _))
  have hcleanPC : ∀ b ∈ payload ++ crc3, ¬b = 0xD3 := fun b hb =>
    hclean b (List.mem_cons_of_mem _ (List.mem_cons_of_mem _ hb))
  have hFlen : (0xD3 :: b1 :: b2 :: (payload ++ crc3)).length = plen + 6 := by
    simp only [List.length_cons, List.length_append, hpl, hc3]
  have hM4096 : payload.getD 0 0 <<< 4 ||| (payload.getD 1 0 >>> 4) &&& 0x0F < 4096 := by
    have hp0 : payload.getD 0 0 < 256 := hbytes _ (getD_mem (by omega))
    have hsl : payload.getD 0 0 <<< 4 < 2 ^ 12 := by
      rw [Nat.shiftLeft_eq, show (2:Nat) ^ 4 = 16 from by norm_num,
        show (2:Nat) ^ 12 = 4096 from by norm_num]
      omega
    have hand : (payload.getD 1 0 >>> 4) &&& 0x0F < 2 ^ 12 := by
      have h15 := @Nat.and_le_right (payload.getD 1 0 >>> 4) 0x0F
      have h12 : (2:Nat) ^ 12 = 4096 := by norm_num
      omega
    have := Nat.or_lt_two_pow hsl hand
    have h12 : (2:Nat) ^ 12 = 4096 := by norm_num
    omega
  have hwhole := extractRtcmIds_head_frame b1 b2 plen (payload ++ crc3) initStats
    hplen (by omega) h2 hb1 hb2 hcleanPC
  rw [if_pos (show 3 + plen ≤ 3 + (payload ++ crc3).length by
    simp only [List.length_append, hpl, hc3]; omega)] at hwhole
  rw [getD_append_left (by omega), getD_append_left (by omega)] at hwhole
  rw [if_pos ⟨hid1, hM4096⟩] at hwhole
  have hAB : ((extractRtcmIds ((0xD3 :: b1 :: b2 :: (payload ++ crc3)).take s)
        initStats).rtcmMessages = if 3 + plen ≤ s then 1 else 0) ∧
      ((extractRtcmIds ((0xD3 :: b1 :: b2 :: (payload ++ crc3)).take s)
          initStats).rtcmTypes =
        if 3 + plen ≤ s then
          [(payload.getD 0 0 <<< 4 ||| (payload.getD 1 0 >>> 4) &&& 0x0F, 1)]
        else []) := by
    rcases s with _ | _ | _ | s'
    · exact absurd hs1 (by decide)
    · rw [if_neg (by omega), if_neg (by omega)]
      exact ⟨rfl, rfl⟩
    · rw [if_neg (by omega), if_neg (by omega)]
      exact ⟨rfl, rfl⟩
    · rw [show (0xD3 :: b1 :: b2 :: (payload ++ crc3)).take (s' + 3) =
        0xD3 :: b1 :: b2 :: ((payload ++ crc3).take s') from rfl]
      have hlent : ((payload ++ crc3).take s').length = s' := by
        rw [List.length_take]
        simp only [List.length_append, hpl, hc3]
        omega
      rw [extractRtcmIds_head_frame b1 b2 plen ((payload ++ crc3).take s') initStats
        hplen (by omega) h2 hb1 hb2 (fun b hb => hcleanPC b (List.mem_of_mem_take hb))]
      rw [hlent]
      by_cases hcnt : 3 + plen ≤ s' + 3
      · rw [if_pos (show 3 + plen ≤ 3 + s' by omega)]
        rw [getD_take (by omega), getD_take (by omega),
          getD_append_left (by omega), getD_append_left (by omega)]
        rw [if_pos ⟨hid1, hM4096⟩, if_pos hcnt, if_pos hcnt]
        exact ⟨rfl, rfl⟩
      · rw [if_neg (by omega), if_neg hcnt, if_neg hcnt]
        exact ⟨rfl, rfl⟩
  obtain ⟨s₀, rfl⟩ : ∃ s₀, s = s₀ + 1 := ⟨s - 1, by omega⟩
  refine ⟨hAB.1, hAB.2,
    fun st => extractRtcmIds_clean _
      (fun b hb => hclean b (List.mem_of_mem_drop hb)) st,
    by rw [hwhole]; rfl, by rw [hwhole]; rfl, fun st buf => rfl⟩

set_option maxRecDepth 10000 in
/-- **C6 witness** — the amended statement applied to the concrete type
1021 frame of `rtcmFrameEx` (preamble, length 4, payload
`3F D0 00 00`, CRC `33 B3 7D`) split at position 6, inside the payload:
counted zero times across the split, once unsplit. -/
theorem extractRtcmIds_split_behaviour_witness :
    ((extractRtcmIds ((0xD3 :: 0x00 :: 0x04 :: ([0x3F, 0xD0, 0x00, 0x00] ++
        toBE3 (crc24q [0xD3, 0x00, 0x04, 0x3F, 0xD0, 0x00, 0x00]))).take 6)
        initStats).rtcmMessages = if 3 + 4 ≤ 6 then 1 else 0) ∧
    ((extractRtcmIds ((0xD3 :: 0x00 :: 0x04 :: ([0x3F, 0xD0, 0x00, 0x00] ++
        toBE3 (crc24q [0xD3, 0x00, 0x04, 0x3F, 0xD0, 0x00, 0x00]))).take 6)
        initStats).rtcmTypes =
      if 3 + 4 ≤ 6 then
        [(([0x3F, 0xD0, 0x00, 0x00] : List Nat).getD 0 0 <<< 4 |||
          (([0x3F, 0xD0, 0x00, 0x00] : List Nat).getD 1 0 >>> 4) &&& 0x0F, 1)]
      else []) ∧
    (∀ st, extractRtcmIds ((0xD3 :: 0x00 :: 0x04 :: ([0x3F, 0xD0, 0x00, 0x00] ++
        toBE3 (crc24q [0xD3, 0x00, 0x04, 0x3F, 0xD0, 0x00, 0x00]))).drop 6) st = st) ∧
    (extractRtcmIds (0xD3 :: 0x00 :: 0x04 :: ([0x3F, 0xD0, 0x00, 0x00] ++
        toBE3 (crc24q [0xD3, 0x00, 0x04, 0x3F, 0xD0, 0x00, 0x00])))
        initStats).rtcmMessages = 1 ∧
    (extractRtcmIds (0xD3 :: 0x00 :: 0x04 :: ([0x3F, 0xD0, 0x00, 0x00] ++
        toBE3 (crc24q [0xD3, 0x00, 0x04, 0x3F, 0xD0, 0x00, 0x00])))
        initStats).rtcmTypes =
      [(([0x3F, 0xD0, 0x00, 0x00] : List Nat).getD 0 0 <<< 4 |||
        (([0x3F, 0xD0, 0x00, 0x00] : List Nat).getD 1 0 >>> 4) &&& 0x0F, 1)] ∧
    (∀ st buf, (onRtcmData st buf).2 = buf) :=
  extractRtcmIds_split_behaviour 0x00 0x04 4 [0x3F, 0xD0, 0x00, 0x00]
    (toBE3 (crc24q [0xD3, 0x00, 0x04, 0x3F, 0xD0, 0x00, 0x00])) 6
    (by decide) (by decide) (by decide) (by decide) (by decide) (by decide)
    (by decide) (by decide) (by decide) (by decide)

end Swegeo
